import Mathlib

/-!
# Verification of the auto-routine daily planning pipeline

Shallow embedding of the core planning functions of the `auto-routine`
backend (Python/SQLAlchemy) together with proofs about them.

Conventions of the embedding:
* Dates are integers counting days from 2025-01-06 (a Monday), so that
  `weekday d = d % 7` agrees with Python `date.weekday()`
  (Monday = 0, ..., Saturday = 5, Sunday = 6).
* Times of day and clock values are whole minutes; the schedule
  simulation clock is minutes from midnight of the target date.
* `Decimal` / `float` quantities are modeled as exact rationals (`Rat`);
  the trigonometric Haversine fallback is abstracted as an explicit
  function parameter, since none of the verified claims depends on its
  numeric values.
* Database rows are lists of records; a SQLAlchemy query is the
  corresponding list traversal.  Python dictionaries keyed by ids are
  association lists.
-/

/-! ## Cutoff scheduler (src/backend/utils/order_processing.py) -/

/-- Cutoff policy settings, as returned by `get_cutoff_settings`:
cutoff time (minutes since midnight), weekend processing flag,
holiday override flag.  Defaults: 13:10, false, false. -/
structure CutoffSettings where
  cutoff_time : Nat
  weekend_processing : Bool
  holiday_override : Bool
deriving Repr, DecidableEq

/-- A `Holiday` row for a given date (only the field the scheduler reads). -/
structure HolidayRec where
  is_working : Bool
deriving Repr, DecidableEq

/-- The defaults hard-coded in `get_cutoff_settings`. -/
def defaultCutoffSettings : CutoffSettings :=
  { cutoff_time := 13 * 60 + 10, weekend_processing := false, holiday_override := false }

/-- Python `date.weekday()` on our integer dates (day 0 = Monday 2025-01-06). -/
def weekday (d : Int) : Int := d % 7

/-- The weekend/holiday-skipping loop of `apply_cutoff_logic`
(`while iterations < max_iterations` with `max_iterations = 30`):
the `Nat` argument is the remaining iteration budget.  When the budget is
exhausted the current candidate date is returned unchanged (the Python
loop simply falls through to `return target_date`). -/
def applyCutoffLoop (s : CutoffSettings) (holidays : Int → Option HolidayRec) :
    Nat → Int → Int
  | 0, t => t
  | n + 1, t =>
    if s.weekend_processing = false ∧ 5 ≤ weekday t then
      applyCutoffLoop s holidays n (t + 1)
    else
      match holidays t with
      | some h =>
        if s.holiday_override = true then t
        else if h.is_working = false then applyCutoffLoop s holidays n (t + 1)
        else t
      | none => t

/-- `apply_cutoff_logic`: before-cutoff arrivals keep the arrival date as
candidate, later arrivals start from the next day; then the bounded
weekend/holiday skip loop runs. -/
def apply_cutoff_logic (s : CutoffSettings) (holidays : Int → Option HolidayRec)
    (orderDay : Int) (orderTimeMin : Nat) : Int :=
  let target := if orderTimeMin < s.cutoff_time then orderDay else orderDay + 1
  applyCutoffLoop s holidays 30 target

/-- Advancing a candidate date past Saturday/Sunday (the effect of the
skip loop when no holidays exist): Sat jumps 2 days, Sun jumps 1 day. -/
def skipWeekend (t : Int) : Int :=
  if weekday t = 5 then t + 2 else if weekday t = 6 then t + 1 else t

/-- A calendar with no `Holiday` rows at all. -/
def noHolidays : Int → Option HolidayRec := fun _ => none

/-- A pathological calendar where every date is a non-working holiday. -/
def allBlockedHolidays : Int → Option HolidayRec := fun _ => some { is_working := false }

theorem weekday_nonneg (d : Int) : 0 ≤ weekday d :=
  Int.emod_nonneg d (by norm_num)

theorem weekday_lt_seven (d : Int) : weekday d < 7 :=
  Int.emod_lt_of_pos d (by norm_num)

theorem weekday_succ (d : Int) : weekday (d + 1) = (weekday d + 1) % 7 := by
  unfold weekday
  omega

theorem applyCutoffLoop_weekday (s : CutoffSettings) (h : Int → Option HolidayRec)
    (n : Nat) (t : Int) (hw : weekday t < 5) (hh : h t = none) :
    applyCutoffLoop s h (n + 1) t = t := by
  conv_lhs => rw [applyCutoffLoop]
  rw [if_neg (by omega), hh]

theorem applyCutoffLoop_skip_weekend (s : CutoffSettings) (h : Int → Option HolidayRec)
    (n : Nat) (t : Int) (hs : s.weekend_processing = false) (hw : 5 ≤ weekday t) :
    applyCutoffLoop s h (n + 1) t = applyCutoffLoop s h n (t + 1) := by
  conv_lhs => rw [applyCutoffLoop]
  rw [if_pos ⟨hs, hw⟩]

theorem applyCutoffLoop_noHolidays_eq_skipWeekend (s : CutoffSettings)
    (hs : s.weekend_processing = false) (m : Nat) (t : Int) :
    applyCutoffLoop s noHolidays (m + 3) t = skipWeekend t := by
  have h7 := weekday_lt_seven t
  have h0 := weekday_nonneg t
  by_cases h5 : weekday t = 5
  · rw [applyCutoffLoop_skip_weekend s _ _ t hs (by omega)]
    have w1 : weekday (t + 1) = 6 := by rw [weekday_succ, h5]; decide
    rw [applyCutoffLoop_skip_weekend s _ _ (t + 1) hs (by omega)]
    have w2 : weekday (t + 1 + 1) = 0 := by rw [weekday_succ, w1]; decide
    rw [applyCutoffLoop_weekday s _ _ (t + 1 + 1) (by omega) rfl]
    unfold skipWeekend
    rw [if_pos h5]
    ring
  · by_cases h6 : weekday t = 6
    · rw [applyCutoffLoop_skip_weekend s _ _ t hs (by omega)]
      have w1 : weekday (t + 1) = 0 := by rw [weekday_succ, h6]; decide
      rw [applyCutoffLoop_weekday s _ _ (t + 1) (by omega) rfl]
      unfold skipWeekend
      rw [if_neg h5, if_pos h6]
    · rw [applyCutoffLoop_weekday s _ _ t (by omega) rfl]
      unfold skipWeekend
      rw [if_neg h5, if_neg h6]

/-- C3: cutoff target-date computation with the default policy (cutoff
13:10 = minute 790, no weekend processing, no holidays): an arrival on a
weekday strictly before the cutoff maps to the arrival date itself; an
arrival at or after the cutoff maps to the next day advanced past
Saturday and Sunday.  Concretely, Tue 2025-02-04 11:30 (day 29, minute
690) maps to 2025-02-04, and Fri 2025-02-07 14:00 (day 32, minute 840)
maps to Mon 2025-02-10 (day 35). -/
theorem cutoff_target_date_correct :
    (∀ d t, t < 790 → weekday d < 5 →
      apply_cutoff_logic defaultCutoffSettings noHolidays d t = d) ∧
    (∀ d t, 790 ≤ t →
      apply_cutoff_logic defaultCutoffSettings noHolidays d t = skipWeekend (d + 1)) ∧
    apply_cutoff_logic defaultCutoffSettings noHolidays 29 690 = 29 ∧
    apply_cutoff_logic defaultCutoffSettings noHolidays 32 840 = 35 := by
  refine ⟨?_, ?_, by decide, by decide⟩
  · intro d t ht hd
    unfold apply_cutoff_logic
    rw [if_pos (show t < defaultCutoffSettings.cutoff_time by
      simp only [defaultCutoffSettings]; omega)]
    have h := applyCutoffLoop_noHolidays_eq_skipWeekend defaultCutoffSettings rfl 27 d
    norm_num at h
    rw [h]
    unfold skipWeekend
    rw [if_neg (by omega), if_neg (by omega)]
  · intro d t ht
    unfold apply_cutoff_logic
    rw [if_neg (show ¬ t < defaultCutoffSettings.cutoff_time by
      simp only [defaultCutoffSettings]; omega)]
    have h := applyCutoffLoop_noHolidays_eq_skipWeekend defaultCutoffSettings rfl 27 (d + 1)
    norm_num at h
    exact h

/-- Witness for `cutoff_target_date_correct` at a concrete input. -/
theorem cutoff_target_date_correct_witness :
    apply_cutoff_logic defaultCutoffSettings noHolidays 29 690 = 29 :=
  cutoff_target_date_correct.1 29 690 (by decide) (by decide)

theorem applyCutoffLoop_allBlocked (s : CutoffSettings)
    (ho : s.holiday_override = false) (n : Nat) :
    ∀ t : Int, applyCutoffLoop s allBlockedHolidays n t = t + n := by
  induction n with
  | zero => intro t; simp [applyCutoffLoop]
  | succ n ih =>
    intro t
    by_cases hw : s.weekend_processing = false ∧ 5 ≤ weekday t
    · rw [applyCutoffLoop_skip_weekend s _ n t hw.1 hw.2, ih]
      push_cast
      ring
    · conv_lhs => rw [applyCutoffLoop]
      rw [if_neg hw]
      show (if s.holiday_override = true then t
            else if (false : Bool) = false then
              applyCutoffLoop s allBlockedHolidays n (t + 1)
            else t) = t + (n + 1 : Nat)
      rw [if_neg (by rw [ho]; simp), if_pos rfl, ih]
      push_cast
      ring

/-- C4 counterexample: with every date a non-working holiday (so the
30-iteration bound is exhausted), `apply_cutoff_logic` still returns a
date (day 30), rather than failing: no `PolicyError` exists anywhere in
the code and the loop falls through to `return target_date`. -/
theorem cutoff_exhaustion_returns_date :
    apply_cutoff_logic defaultCutoffSettings allBlockedHolidays 0 0 = 30 := by
  decide

/-- C4 amended: when the weekend/holiday-skipping loop exhausts its
30-iteration bound (here forced by an all-blocked holiday calendar with
no global override), `apply_cutoff_logic` does not fail: it returns the
candidate date it reached, i.e. the initial candidate advanced by 30
days. -/
theorem cutoff_exhaustion_amended (s : CutoffSettings)
    (ho : s.holiday_override = false) (d : Int) (t : Nat) :
    apply_cutoff_logic s allBlockedHolidays d t =
      (if t < s.cutoff_time then d else d + 1) + 30 := by
  unfold apply_cutoff_logic
  rw [applyCutoffLoop_allBlocked s ho 30]
  norm_num

/-- Witness for `cutoff_exhaustion_amended` at a concrete input. -/
theorem cutoff_exhaustion_amended_witness :
    apply_cutoff_logic defaultCutoffSettings allBlockedHolidays 0 0 =
      (if (0 : Nat) < defaultCutoffSettings.cutoff_time then (0 : Int) else 0 + 1) + 30 :=
  cutoff_exhaustion_amended defaultCutoffSettings rfl 0 0

/-! ## Store selector + allocator (src/backend/services/store_selection.py)

The Haversine helper `calculate_distance` is trigonometric; it is
abstracted as an explicit function parameter `hav` (none of the claims
depends on its values).  Python truthiness tests on numbers
(`if mapping.priority:`, `if product.fixed_store_id:`, `if store.latitude`)
are modeled as "present and nonzero".  `calculate_store_score` returns a
Python float, but every contribution is a whole number, so scores are
embedded as exact integers. -/

inductive StockSt
  | in_stock
  | low_stock
  | out_of_stock
  | discontinued
  | unknown
deriving Repr, DecidableEq

structure OrderItemRow where
  item_id : Nat
  sku : String
  quantity : Int
deriving Repr, DecidableEq

structure ProductRow where
  product_id : Nat
  sku : String
  is_store_fixed : Bool
  fixed_store_id : Option Nat
deriving Repr, DecidableEq

structure StoreRow where
  store_id : Nat
  store_name : String
  priority_level : Int
  latitude : Option Rat
  longitude : Option Rat
  is_active : Bool
deriving Repr, DecidableEq

structure MappingRow where
  product_id : Nat
  store_id : Nat
  stock_status : StockSt
  priority : Option Int
  is_primary_store : Bool
  max_daily_quantity : Option Int
  current_available : Option Int
deriving Repr, DecidableEq

structure StoreAllocation where
  store_id : Nat
  store_name : String
  quantity : Int
  score : Int
deriving Repr, DecidableEq

structure ItemAllocation where
  item_id : Nat
  sku : String
  total_quantity : Int
  allocations : List StoreAllocation
  remaining_quantity : Int
deriving Repr, DecidableEq

/-- The relational tables the allocator reads. -/
structure AllocDB where
  products : List ProductRow
  stores : List StoreRow
  mappings : List MappingRow
deriving Repr

/-- `calculate_store_score`: stock + store priority + mapping priority +
primary bonus + staff-distance bonus.  `hav` stands for the Haversine
`calculate_distance`. -/
def calculate_store_score (hav : Rat × Rat → Rat × Rat → Rat)
    (m : MappingRow) (st : StoreRow) (staff_location : Option (Rat × Rat)) : Int :=
  let s1 : Int :=
    match m.stock_status with
    | .in_stock => 100
    | .low_stock => 50
    | .unknown => 25
    | _ => 0
  let s2 : Int := s1 + max 0 (10 - st.priority_level) * 5
  let s3 : Int := s2 +
    (match m.priority with
     | some p => if p ≠ 0 then max 0 (10 - p) * 3 else 0
     | none => 0)
  let s4 : Int := s3 + (if m.is_primary_store then 20 else 0)
  match staff_location, st.latitude, st.longitude with
  | some loc, some lat, some lng =>
    if lat ≠ 0 ∧ lng ≠ 0 then
      let d := hav loc (lat, lng)
      s4 + (if d < 1 then 50 else if d < 3 then 30
            else if d < 5 then 15 else if d < 10 then 5 else 0)
    else s4
  | _, _, _ => s4

/-- `get_available_quantity`: `current_available` first, then
`max_daily_quantity`, then 0 for out-of-stock/discontinued, else
unbounded (`none`). -/
def get_available_quantity (m : MappingRow) : Option Int :=
  match m.current_available with
  | some v => some v
  | none =>
    match m.max_daily_quantity with
    | some v => some v
    | none =>
      if m.stock_status = .out_of_stock ∨ m.stock_status = .discontinued then some 0
      else none

structure ScoredStore where
  store_id : Nat
  store_name : String
  score : Int
  available_quantity : Option Int
deriving Repr, DecidableEq

/-- The greedy allocation loop of `allocate_quantities_to_stores`
(lines 155-184): walk the scored candidates, buying
`min remaining available` (or all of `remaining` when the candidate is
unbounded), emitting an allocation per strictly-positive draw. -/
def allocateAcrossStores : Int → List ScoredStore → List StoreAllocation × Int
  | remaining, [] => ([], remaining)
  | remaining, s :: rest =>
    if remaining ≤ 0 then ([], remaining)
    else
      let to_buy : Int :=
        match s.available_quantity with
        | some a => min remaining a
        | none => remaining
      if 0 < to_buy then
        let r := allocateAcrossStores (remaining - to_buy) rest
        (⟨s.store_id, s.store_name, to_buy, s.score⟩ :: r.1, r.2)
      else allocateAcrossStores remaining rest

/-- `products_by_sku` dict lookup for one item (dict built from all
products whose SKU occurs in the batch; per-item lookup is by that
item's own SKU, so a plain search over the product table). -/
def findProductBySku (db : AllocDB) (sku : String) : Option ProductRow :=
  db.products.find? (fun p => p.sku = sku)

/-- Store-name lookup used by the fixed-store branch (`"Unknown"` when
the store row is absent). -/
def storeNameOf (db : AllocDB) (sid : Nat) : String :=
  match db.stores.find? (fun st => st.store_id = sid) with
  | some st => st.store_name
  | none => "Unknown"

/-- The mappings-joined-with-active-stores rows for one product
(`mappings_by_product`), in table order. -/
def activeCandidates (db : AllocDB) (pid : Nat) : List (MappingRow × StoreRow) :=
  (db.mappings.filter (fun m => m.product_id = pid)).filterMap
    (fun m =>
      (db.stores.find? (fun st => st.store_id = m.store_id ∧ st.is_active = true)).map
        (fun st => (m, st)))

/-- Per-item body of the `for item in items` loop of
`allocate_quantities_to_stores`: missing product → empty allocation with
full remainder; store-fixed product (truthy `fixed_store_id`) → single
full allocation with score 100; otherwise score, stable-sort descending
and run the greedy loop.  Python `list.sort(key=score, reverse=True)` is
a stable descending sort, i.e. insertion sort with the relation
"later score ≤ earlier score". -/
def processItem (hav : Rat × Rat → Rat × Rat → Rat) (db : AllocDB)
    (staff_location : Option (Rat × Rat)) (it : OrderItemRow) : ItemAllocation :=
  match findProductBySku db it.sku with
  | none => ⟨it.item_id, it.sku, it.quantity, [], it.quantity⟩
  | some p =>
    if p.is_store_fixed = true ∧ p.fixed_store_id.getD 0 ≠ 0 then
      let fid := p.fixed_store_id.getD 0
      ⟨it.item_id, it.sku, it.quantity,
        [⟨fid, storeNameOf db fid, it.quantity, 100⟩], 0⟩
    else
      let candidates := activeCandidates db p.product_id
      if candidates = [] then ⟨it.item_id, it.sku, it.quantity, [], it.quantity⟩
      else
        let scored := candidates.map (fun c =>
          ScoredStore.mk c.2.store_id c.2.store_name
            (calculate_store_score hav c.1 c.2 staff_location)
            (get_available_quantity c.1))
        let sorted := scored.insertionSort (fun a b => b.score ≤ a.score)
        let r := allocateAcrossStores it.quantity sorted
        ⟨it.item_id, it.sku, it.quantity, r.1, r.2⟩

/-- `allocate_quantities_to_stores`: the early `return {}` fires when no
product row matches any SKU of the batch; otherwise the result dict maps
each item id to its `ItemAllocation` (association list in batch order). -/
def allocate_quantities_to_stores (hav : Rat × Rat → Rat × Rat → Rat) (db : AllocDB)
    (items : List OrderItemRow) (staff_location : Option (Rat × Rat)) :
    List (Nat × ItemAllocation) :=
  let products_by_sku := db.products.filter (fun p => (items.map (fun i => i.sku)).contains p.sku)
  if products_by_sku.isEmpty then []
  else items.map (fun it => (it.item_id, processItem hav db staff_location it))

theorem allocateAcrossStores_conserves (l : List ScoredStore) :
    ∀ q : Int,
      (((allocateAcrossStores q l).1.map (fun a => a.quantity)).sum +
        (allocateAcrossStores q l).2 = q) ∧
      ∀ s ∈ (allocateAcrossStores q l).1, 0 < s.quantity := by
  induction l with
  | nil => intro q; simp [allocateAcrossStores]
  | cons s rest ih =>
    intro q
    unfold allocateAcrossStores
    by_cases h0 : q ≤ 0
    · rw [if_pos h0]
      simp
    · rw [if_neg h0]
      set tb : Int := (match s.available_quantity with
        | some a => min q a
        | none => q) with htb
      by_cases hpos : 0 < tb
      · rw [if_pos hpos]
        obtain ⟨ihc, ihp⟩ := ih (q - tb)
        constructor
        · simp only [List.map_cons, List.sum_cons]
          omega
        · intro x hx
          rcases List.mem_cons.mp hx with hx | hx
          · subst hx; exact hpos
          · exact ihp x hx
      · rw [if_neg hpos]
        exact ih q

theorem processItem_conserves (hav : Rat × Rat → Rat × Rat → Rat) (db : AllocDB)
    (loc : Option (Rat × Rat)) (it : OrderItemRow) (hq : 1 ≤ it.quantity) :
    (((processItem hav db loc it).allocations.map (fun a => a.quantity)).sum +
      (processItem hav db loc it).remaining_quantity = it.quantity) ∧
    ∀ s ∈ (processItem hav db loc it).allocations, 0 < s.quantity := by
  rcases hfp : findProductBySku db it.sku with _ | p
  · simp [processItem, hfp]
  · by_cases hfix : p.is_store_fixed = true ∧ p.fixed_store_id.getD 0 ≠ 0
    · refine ⟨?_, ?_⟩
      · simp [processItem, hfp, hfix]
      · intro s hs
        simp only [processItem, hfp, if_pos hfix, List.mem_singleton] at hs
        subst hs
        exact hq
    · by_cases hc : activeCandidates db p.product_id = []
      · simp [processItem, hfp, hfix, hc]
      · have key := allocateAcrossStores_conserves
          (((activeCandidates db p.product_id).map (fun c =>
            ScoredStore.mk c.2.store_id c.2.store_name
              (calculate_store_score hav c.1 c.2 loc)
              (get_available_quantity c.1))).insertionSort (fun a b => b.score ≤ a.score))
          it.quantity
        simp only [processItem, hfp, if_neg hfix, if_neg hc]
        exact key

theorem lookup_map_assoc_of_nodup (f : OrderItemRow → ItemAllocation) :
    ∀ (items : List OrderItemRow) (it : OrderItemRow), it ∈ items →
      (items.map (fun x => x.item_id)).Nodup →
      (items.map (fun x => (x.item_id, f x))).lookup it.item_id = some (f it) := by
  intro items
  induction items with
  | nil => intro it h; simp at h
  | cons y rest ih =>
    intro it hmem hnd
    simp only [List.map_cons, List.nodup_cons] at hnd
    rcases List.mem_cons.mp hmem with h | h
    · subst h
      simp [List.lookup]
    · have hne : (it.item_id == y.item_id) = false := by
        apply beq_eq_false_iff_ne.mpr
        intro he
        exact hnd.1 (he ▸ List.mem_map_of_mem (fun x => x.item_id) h)
      simp only [List.map_cons, List.lookup, hne]
      exact ih it h hnd.2

/-- C1: quantity conservation.  For every OrderItem in the batch (with
positive quantity and distinct item ids, both data invariants), the
allocator's entry for that item satisfies
sum of allocation quantities + remaining_quantity = item quantity, and
every emitted allocation has strictly positive quantity. -/
theorem allocate_quantity_conservation (hav : Rat × Rat → Rat × Rat → Rat)
    (db : AllocDB) (items : List OrderItemRow) (loc : Option (Rat × Rat))
    (hq : ∀ it ∈ items, 1 ≤ it.quantity)
    (hnd : (items.map (fun x => x.item_id)).Nodup) :
    ∀ it ∈ items, ∀ a : ItemAllocation,
      (allocate_quantities_to_stores hav db items loc).lookup it.item_id = some a →
      ((a.allocations.map (fun s => s.quantity)).sum + a.remaining_quantity = it.quantity ∧
       ∀ s ∈ a.allocations, 0 < s.quantity) := by
  intro it hmem a ha
  unfold allocate_quantities_to_stores at ha
  by_cases hemp : (db.products.filter
      (fun p => (items.map (fun i => i.sku)).contains p.sku)).isEmpty
  · rw [if_pos hemp] at ha
    simp [List.lookup] at ha
  · rw [if_neg hemp] at ha
    rw [lookup_map_assoc_of_nodup (processItem hav db loc) items it hmem hnd] at ha
    have := processItem_conserves hav db loc it (hq it hmem)
    rw [Option.some_inj] at ha
    subst ha
    exact this

/-- A degenerate distance function standing in for Haversine in concrete
examples (its value is irrelevant to the verified properties). -/
def hav0 : Rat × Rat → Rat × Rat → Rat := fun _ _ => 0

/-- Witness for `allocate_quantity_conservation`: one item of quantity 5,
one in-stock store capped at 3 → allocation 3 with remainder 2. -/
theorem allocate_quantity_conservation_witness :
    (((ItemAllocation.mk 1 "X" 5 [⟨1, "A", 3, 145⟩] 2).allocations.map
        (fun s => s.quantity)).sum +
      (ItemAllocation.mk 1 "X" 5 [⟨1, "A", 3, 145⟩] 2).remaining_quantity =
        (OrderItemRow.mk 1 "X" 5).quantity) ∧
    ∀ s ∈ (ItemAllocation.mk 1 "X" 5 [⟨1, "A", 3, 145⟩] 2).allocations, 0 < s.quantity :=
  allocate_quantity_conservation hav0
    ⟨[⟨1, "X", false, none⟩], [⟨1, "A", 1, none, none, true⟩],
      [⟨1, 1, .in_stock, none, false, some 3, none⟩]⟩
    [⟨1, "X", 5⟩] none (by decide) (by decide) ⟨1, "X", 5⟩ (by decide) _ (by decide)

/-- C5 counterexample: a candidate mapping with `stock_status =
out_of_stock` but `current_available = 5` is NOT capped at 0:
`get_available_quantity` consults `current_available` first, so the
allocator buys 3 units from that store (item quantity 3, remainder 0),
contradicting "cap 0 regardless of current_available". -/
theorem out_of_stock_cap_counterexample :
    (allocate_quantities_to_stores hav0
      ⟨[⟨1, "X", false, none⟩], [⟨1, "S", 10, none, none, true⟩],
        [⟨1, 1, .out_of_stock, none, false, none, some 5⟩]⟩
      [⟨1, "X", 3⟩] none).lookup 1 =
      some ⟨1, "X", 3, [⟨1, "S", 3, 0⟩], 0⟩ := by
  decide

theorem allocateAcrossStores_skips_zero (s : ScoredStore)
    (hz : s.available_quantity = some 0) :
    ∀ (xs ys : List ScoredStore) (q : Int),
      allocateAcrossStores q (xs ++ s :: ys) = allocateAcrossStores q (xs ++ ys) := by
  intro xs
  induction xs with
  | nil =>
    intro ys q
    simp only [List.nil_append]
    by_cases h0 : q ≤ 0
    · conv_lhs => rw [allocateAcrossStores]
      rw [if_pos h0]
      cases ys with
      | nil => rw [allocateAcrossStores]
      | cons y ys' =>
        conv_rhs => rw [allocateAcrossStores]
        rw [if_pos h0]
    · conv_lhs => rw [allocateAcrossStores]
      rw [if_neg h0, hz]
      simp only []
      rw [if_neg (by omega : ¬ (0 < min q 0))]
  | cons x xs' ih =>
    intro ys q
    simp only [List.cons_append]
    conv_lhs => rw [allocateAcrossStores]
    conv_rhs => rw [allocateAcrossStores]
    by_cases h0 : q ≤ 0
    · rw [if_pos h0, if_pos h0]
    · rw [if_neg h0, if_neg h0]
      by_cases hpos : 0 < (match x.available_quantity with
        | some a => min q a
        | none => q)
      · rw [if_pos hpos, if_pos hpos]
        rw [ih]
      · rw [if_neg hpos, if_neg hpos]
        exact ih ys q

/-- C5 amended: a mapping with `out_of_stock`/`discontinued` stock
status contributes cap 0 (and its store is skipped by the greedy loop)
only when both `current_available` and `max_daily_quantity` are unset;
when either is set, `get_available_quantity` returns that value
regardless of the stock status.  First conjunct: the cap is 0 in the
both-unset case.  Second conjunct: a candidate whose available quantity
is 0 is skipped by the allocation walk (removing it changes nothing). -/
theorem out_of_stock_cap_amended :
    (∀ m : MappingRow,
      (m.stock_status = .out_of_stock ∨ m.stock_status = .discontinued) →
      m.current_available = none → m.max_daily_quantity = none →
      get_available_quantity m = some 0) ∧
    (∀ (s : ScoredStore) (xs ys : List ScoredStore) (q : Int),
      s.available_quantity = some 0 →
      allocateAcrossStores q (xs ++ s :: ys) = allocateAcrossStores q (xs ++ ys)) := by
  constructor
  · intro m hst hca hmd
    unfold get_available_quantity
    rw [hca, hmd]
    simp only [if_pos hst]
  · intro s xs ys q hz
    exact allocateAcrossStores_skips_zero s hz xs ys q

/-- Witness for `out_of_stock_cap_amended` at concrete inputs. -/
theorem out_of_stock_cap_amended_witness :
    get_available_quantity ⟨1, 1, .out_of_stock, none, false, none, none⟩ = some 0 ∧
    allocateAcrossStores 3 ([] ++ ⟨7, "Z", 0, some 0⟩ :: [⟨2, "W", 0, some 4⟩]) =
      allocateAcrossStores 3 ([] ++ [⟨2, "W", 0, some 4⟩]) :=
  ⟨out_of_stock_cap_amended.1 ⟨1, 1, .out_of_stock, none, false, none, none⟩
      (Or.inl rfl) rfl rfl,
    out_of_stock_cap_amended.2 ⟨7, "Z", 0, some 0⟩ [] [⟨2, "W", 0, some 4⟩] 3 rfl⟩

/-- C10: when no SKU of the batch matches any Product row, the allocator
returns the empty map (no per-item entries at all, the early
`return {}`); yet an item with an unresolved SKU does get an entry with
no allocations and full remaining quantity as soon as at least one other
SKU resolves. -/
theorem allocator_empty_resolution_edge (hav : Rat × Rat → Rat × Rat → Rat)
    (db : AllocDB) (loc : Option (Rat × Rat)) (items : List OrderItemRow) :
    ((∀ it ∈ items, findProductBySku db it.sku = none) →
      allocate_quantities_to_stores hav db items loc = []) ∧
    (∀ it ∈ items, findProductBySku db it.sku = none →
      (∃ it2 ∈ items, findProductBySku db it2.sku ≠ none) →
      (it.item_id, ItemAllocation.mk it.item_id it.sku it.quantity [] it.quantity) ∈
        allocate_quantities_to_stores hav db items loc) := by
  constructor
  · intro hall
    unfold allocate_quantities_to_stores
    rw [if_pos ?_]
    rw [List.isEmpty_iff, List.filter_eq_nil_iff]
    intro p hp
    simp only [List.elem_iff, List.mem_map]
    rintro ⟨it, hit, hsku⟩
    have := hall it hit
    unfold findProductBySku at this
    rw [List.find?_eq_none] at this
    exact this p hp (decide_eq_true hsku.symm)
  · intro it hit hnone ⟨it2, hit2, hsome⟩
    unfold allocate_quantities_to_stores
    rw [if_neg ?_]
    · have : processItem hav db loc it =
        ItemAllocation.mk it.item_id it.sku it.quantity [] it.quantity := by
        unfold processItem
        rw [hnone]
      rw [← this]
      exact List.mem_map_of_mem (fun x => (x.item_id, processItem hav db loc x)) hit
    · rw [List.isEmpty_iff]
      intro hnil
      unfold findProductBySku at hsome
      rcases Option.ne_none_iff_exists.mp hsome with ⟨p, hp⟩
      have hpmem := List.find?_some hp.symm
      have hpp := List.mem_of_find?_eq_some hp.symm
      have : p ∈ db.products.filter
          (fun p => (items.map (fun i => i.sku)).contains p.sku) := by
        rw [List.mem_filter]
        refine ⟨hpp, ?_⟩
        simp only [List.elem_iff, List.mem_map]
        exact ⟨it2, hit2, (by simpa using hpmem : p.sku = it2.sku).symm⟩
      rw [hnil] at this
      simp at this

/-- Witness for `allocator_empty_resolution_edge`: SKU "X" unresolved,
SKU "Y" resolved. -/
theorem allocator_empty_resolution_edge_witness :
    ((1 : Nat), ItemAllocation.mk 1 "X" 2 [] 2) ∈
      allocate_quantities_to_stores hav0 ⟨[⟨9, "Y", false, none⟩], [], []⟩
        [⟨1, "X", 2⟩, ⟨2, "Y", 1⟩] none :=
  (allocator_empty_resolution_edge hav0 ⟨[⟨9, "Y", false, none⟩], [], []⟩ none
      [⟨1, "X", 2⟩, ⟨2, "Y", 1⟩]).2
    ⟨1, "X", 2⟩ (by decide) (by decide) ⟨⟨2, "Y", 1⟩, by decide, by decide⟩

/-! ## Staff assignment (src/backend/services/staff_assignment.py)

`auto_assign_daily_orders`: the geography-aware per-item assignment
loop.  Python computes `dist = sqrt((Δlat)² + (Δlng)²)`, halves it when
the buyer already visits one of the item's stores, and compares with
strict `<`; since all compared quantities are nonnegative, comparing the
squares `(Δlat)² + (Δlng)²` (quartered on overlap) preserves every
comparison exactly, so the embedding tracks squared scores in `Rat`.
Python `set`s are modeled as duplicate-free lists (insertion order is
irrelevant: only membership and sums over the set are used). -/

inductive ItemSt
  | pending
  | assigned
  | purchased
  | failed
  | discontinued
  | out_of_stock
  | restocking
deriving Repr, DecidableEq

structure StaffRow where
  staff_id : Nat
  max_daily_capacity : Int
  start_location_lat : Option Rat
  start_location_lng : Option Rat
deriving Repr, DecidableEq

/-- Data gathered up front by `auto_assign_daily_orders`: the active
buyers (query-ordered by staff_id), the store-coordinate lookup (only
truthy coordinates are stored), and the allocation result from 4.D. -/
structure AssignEnv where
  available_staff : List StaffRow
  store_coords : List (Nat × (Rat × Rat))
  item_allocations : List (Nat × ItemAllocation)

/-- One created `PurchaseListItem` (owning list identified by its
staff). -/
structure AssignListItem where
  staff_id : Nat
  item_id : Nat
  store_id : Nat
  quantity_to_purchase : Int
  sequence_order : Nat
deriving Repr, DecidableEq

/-- The mutable state of the assignment loop. -/
structure AssignState where
  staff_workload : List (Nat × Nat)
  staff_store_sets : List (Nat × List Nat)
  staff_centroids : List (Nat × (Rat × Rat))
  created : List AssignListItem
  item_statuses : List (Nat × ItemSt)

/-- Update an association list at an existing key (all keys used are
pre-initialized for every available staff / pending item, matching the
dict initialization in the Python code). -/
def assocSet {α : Type} : List (Nat × α) → Nat → α → List (Nat × α)
  | [], _, _ => []
  | p :: rest, k, v => (if p.1 = k then (k, v) else p) :: assocSet rest k v

def sqDist (a b : Rat × Rat) : Rat := (a.1 - b.1) ^ 2 + (a.2 - b.2) ^ 2

/-- Centroid of an item's allocated stores (mean of the coordinates
found in `store_coords`, falling back to the configured city center
34.6937, 135.5023). -/
def itemCentroidOf (env : AssignEnv) (item_store_ids : List Nat) : Rat × Rat :=
  let pts := item_store_ids.filterMap (fun sid => env.store_coords.lookup sid)
  if pts.isEmpty then (346937 / 10000, 1355023 / 10000)
  else ((pts.map Prod.fst).sum / pts.length, (pts.map Prod.snd).sum / pts.length)

/-- The staff scan of `_find_best_staff`: skip buyers whose projected
load would exceed capacity, otherwise score by (squared) centroid
distance, quartered (= halved before squaring) when the buyer already
visits one of the item's stores, keeping the strictly best. -/
def findBestStaffAux (st : AssignState) (icent : Rat × Rat)
    (item_store_ids : List Nat) (alloc_count : Nat) :
    List StaffRow → Option (Nat × Rat) → Option Nat
  | [], best => best.map (fun b => b.1)
  | s :: rest, best =>
    let current_load := (st.staff_workload.lookup s.staff_id).getD 0
    if (current_load : Int) + (alloc_count : Int) > s.max_daily_capacity then
      findBestStaffAux st icent item_store_ids alloc_count rest best
    else
      let c := (st.staff_centroids.lookup s.staff_id).getD (0, 0)
      let sq := sqDist c icent
      let overlap := (((st.staff_store_sets.lookup s.staff_id).getD []).filter
        (fun x => item_store_ids.contains x)).length
      let eff := if 0 < overlap then sq * (1 / 4) else sq
      match best with
      | none => findBestStaffAux st icent item_store_ids alloc_count rest (some (s.staff_id, eff))
      | some b =>
        if eff < b.2 then
          findBestStaffAux st icent item_store_ids alloc_count rest (some (s.staff_id, eff))
        else
          findBestStaffAux st icent item_store_ids alloc_count rest (some b)

def findBestStaff (env : AssignEnv) (st : AssignState)
    (item_store_ids : List Nat) (alloc_count : Nat) : Option Nat :=
  findBestStaffAux st (itemCentroidOf env item_store_ids) item_store_ids alloc_count
    env.available_staff none

/-- Python `set.add` on the duplicate-free list model. -/
def insertStoreId (l : List Nat) (x : Nat) : List Nat :=
  if l.contains x then l else l ++ [x]

/-- `_update_staff_centroid`: add the new stores to the buyer's store
set and recompute the centroid as the mean of the set's known
coordinates (unchanged if none are known). -/
def updateStaffCentroid (env : AssignEnv) (st : AssignState) (sid : Nat)
    (new_store_ids : List Nat) : AssignState :=
  let newSet := new_store_ids.foldl insertStoreId ((st.staff_store_sets.lookup sid).getD [])
  let pts := newSet.filterMap (fun s => env.store_coords.lookup s)
  let centroids' :=
    if pts.isEmpty then st.staff_centroids
    else assocSet st.staff_centroids sid
      ((pts.map Prod.fst).sum / pts.length, (pts.map Prod.snd).sum / pts.length)
  { st with staff_store_sets := assocSet st.staff_store_sets sid newSet,
            staff_centroids := centroids' }

/-- Body of the `for item in pending_items` loop: skip items without
allocations, pick the best staff (skip when none has room), create one
PurchaseListItem per allocation with increasing sequence numbers, bump
the workload, mark the OrderItem assigned, update the centroid. -/
def assignItem (env : AssignEnv) (st : AssignState) (it : OrderItemRow) : AssignState :=
  match env.item_allocations.lookup it.item_id with
  | none => st
  | some allocation =>
    if allocation.allocations.isEmpty then st
    else
      let allocations_count := allocation.allocations.length
      let item_store_ids := allocation.allocations.map (fun a => a.store_id)
      match findBestStaff env st item_store_ids allocations_count with
      | none => st
      | some best_sid =>
        let current_load := (st.staff_workload.lookup best_sid).getD 0
        let newItems := allocation.allocations.enum.map (fun p =>
          AssignListItem.mk best_sid it.item_id p.2.store_id p.2.quantity
            (current_load + p.1 + 1))
        let st' := { st with
          created := st.created ++ newItems,
          staff_workload := assocSet st.staff_workload best_sid
            (current_load + allocations_count),
          item_statuses := assocSet st.item_statuses it.item_id ItemSt.assigned }
        updateStaffCentroid env st' best_sid item_store_ids

/-- The geography-aware assignment phase of `auto_assign_daily_orders`
(the purchase-list bookkeeping that follows it does not touch workloads
or item statuses). -/
def auto_assign_daily_orders (env : AssignEnv) (st : AssignState)
    (pending_items : List OrderItemRow) : AssignState :=
  pending_items.foldl (assignItem env) st

theorem lookup_assocSet_ne {α : Type} (k : Nat) (v : α)
    (j : Nat) (hjk : j ≠ k) :
    ∀ l : List (Nat × α), (assocSet l k v).lookup j = l.lookup j := by
  intro l
  induction l with
  | nil => rfl
  | cons p rest ih =>
    obtain ⟨k', v'⟩ := p
    rw [show assocSet ((k', v') :: rest) k v =
      ((if k' = k then (k, v) else (k', v')) :: assocSet rest k v) from rfl]
    by_cases hp : k' = k
    · rw [if_pos hp]
      subst hp
      simp only [List.lookup, beq_eq_false_iff_ne.mpr hjk]
      exact ih
    · rw [if_neg hp]
      cases hjp : (j == k') with
      | true => simp [List.lookup, hjp]
      | false => simp only [List.lookup, hjp]; exact ih

theorem lookup_assocSet_self {α : Type} (k : Nat) (v : α) :
    ∀ l : List (Nat × α), (assocSet l k v).lookup k = (l.lookup k).map (fun _ => v) := by
  intro l
  induction l with
  | nil => rfl
  | cons p rest ih =>
    obtain ⟨k', v'⟩ := p
    rw [show assocSet ((k', v') :: rest) k v =
      ((if k' = k then (k, v) else (k', v')) :: assocSet rest k v) from rfl]
    by_cases hp : k' = k
    · rw [if_pos hp]
      subst hp
      simp [List.lookup]
    · rw [if_neg hp]
      have hne : (k == k') = false := beq_eq_false_iff_ne.mpr (fun h => hp h.symm)
      simp only [List.lookup, hne]
      exact ih

theorem findBestStaffAux_sound (st : AssignState) (icent : Rat × Rat)
    (ids : List Nat) (cnt : Nat) :
    ∀ (l : List StaffRow) (best : Option (Nat × Rat)) (sid : Nat),
      findBestStaffAux st icent ids cnt l best = some sid →
      (∃ s ∈ l, s.staff_id = sid ∧
        ((st.staff_workload.lookup s.staff_id).getD 0 : Int) + (cnt : Int) ≤
          s.max_daily_capacity) ∨
      (∃ q, best = some (sid, q)) := by
  intro l
  induction l with
  | nil =>
    intro best sid h
    simp only [findBestStaffAux] at h
    rcases Option.map_eq_some'.mp h with ⟨b, hb, hb1⟩
    right
    exact ⟨b.2, by rw [hb, ← hb1]⟩
  | cons s rest ih =>
    intro best sid h
    simp only [findBestStaffAux] at h
    split at h
    · rcases ih best sid h with ⟨s', hs', h1, h2⟩ | hr
      · exact Or.inl ⟨s', List.mem_cons_of_mem s hs', h1, h2⟩
      · exact Or.inr hr
    · rename_i hskip
      have hcap : ((st.staff_workload.lookup s.staff_id).getD 0 : Int) + (cnt : Int) ≤
          s.max_daily_capacity := by omega
      split at h
      · rcases ih _ sid h with ⟨s', hs', h1, h2⟩ | ⟨q, hq⟩
        · exact Or.inl ⟨s', List.mem_cons_of_mem s hs', h1, h2⟩
        · exact Or.inl ⟨s, List.mem_cons_self s rest,
            congrArg Prod.fst (Option.some_inj.mp hq), hcap⟩
      · rename_i b
        split at h
        · split at h
          · rcases ih _ sid h with ⟨s', hs', h1, h2⟩ | ⟨q, hq⟩
            · exact Or.inl ⟨s', List.mem_cons_of_mem s hs', h1, h2⟩
            · exact Or.inl ⟨s, List.mem_cons_self s rest,
                congrArg Prod.fst (Option.some_inj.mp hq), hcap⟩
          · rcases ih _ sid h with ⟨s', hs', h1, h2⟩ | ⟨q, hq⟩
            · exact Or.inl ⟨s', List.mem_cons_of_mem s hs', h1, h2⟩
            · exact Or.inr ⟨q, hq⟩
        · split at h
          · rcases ih _ sid h with ⟨s', hs', h1, h2⟩ | ⟨q, hq⟩
            · exact Or.inl ⟨s', List.mem_cons_of_mem s hs', h1, h2⟩
            · exact Or.inl ⟨s, List.mem_cons_self s rest,
                congrArg Prod.fst (Option.some_inj.mp hq), hcap⟩
          · rcases ih _ sid h with ⟨s', hs', h1, h2⟩ | ⟨q, hq⟩
            · exact Or.inl ⟨s', List.mem_cons_of_mem s hs', h1, h2⟩
            · exact Or.inr ⟨q, hq⟩

theorem updateStaffCentroid_workload (env : AssignEnv) (st : AssignState)
    (sid : Nat) (ids : List Nat) :
    (updateStaffCentroid env st sid ids).staff_workload = st.staff_workload := rfl

theorem updateStaffCentroid_statuses (env : AssignEnv) (st : AssignState)
    (sid : Nat) (ids : List Nat) :
    (updateStaffCentroid env st sid ids).item_statuses = st.item_statuses := rfl

theorem assignItem_preserves (env : AssignEnv)
    (hnd : (env.available_staff.map (fun s => s.staff_id)).Nodup)
    (st : AssignState) (it : OrderItemRow)
    (h : ∀ s ∈ env.available_staff,
      ((st.staff_workload.lookup s.staff_id).getD 0 : Int) ≤ s.max_daily_capacity) :
    (∀ s ∈ env.available_staff,
      (((assignItem env st it).staff_workload.lookup s.staff_id).getD 0 : Int) ≤
        s.max_daily_capacity) ∧
    (∀ j : Nat,
      (assignItem env st it).item_statuses.lookup j = st.item_statuses.lookup j ∨
      (assignItem env st it).item_statuses.lookup j = some ItemSt.assigned) := by
  rcases halloc : env.item_allocations.lookup it.item_id with _ | allocation
  · have hid : assignItem env st it = st := by simp [assignItem, halloc]
    rw [hid]
    exact ⟨h, fun j => Or.inl rfl⟩
  · by_cases hemp : allocation.allocations.isEmpty
    · have hid : assignItem env st it = st := by simp [assignItem, halloc, hemp]
      rw [hid]
      exact ⟨h, fun j => Or.inl rfl⟩
    · rcases hbest : findBestStaff env st
          (allocation.allocations.map (fun a => a.store_id))
          allocation.allocations.length with _ | best_sid
      · have hid : assignItem env st it = st := by
          simp only [assignItem, halloc, if_neg hemp, hbest]
        rw [hid]
        exact ⟨h, fun j => Or.inl rfl⟩
      · have hbest' := hbest
        rw [findBestStaff] at hbest'
        have hsound := findBestStaffAux_sound st _ _ _
          env.available_staff none best_sid hbest'
        rcases hsound with ⟨s', hs', hsid', hcap'⟩ | ⟨q, hq⟩
        · constructor
          · intro s hs
            simp only [assignItem, halloc, if_neg hemp, hbest,
              updateStaffCentroid_workload]
            by_cases hsid : s.staff_id = best_sid
            · rw [hsid, lookup_assocSet_self]
              have hsame : s' = s :=
                List.inj_on_of_nodup_map hnd hs' hs (by rw [hsid', hsid])
              subst hsame
              rw [hsid'] at hcap'
              rcases hl : st.staff_workload.lookup best_sid with _ | w
              · simp only [Option.map_none', Option.getD_none] at hcap' ⊢
                omega
              · rw [hl] at hcap'
                simp only [Option.getD_some] at hcap'
                simp only [Option.map_some', Option.getD_some]
                omega
            · rw [lookup_assocSet_ne _ _ _ hsid]
              exact h s hs
          · intro j
            simp only [assignItem, halloc, if_neg hemp, hbest,
              updateStaffCentroid_statuses]
            by_cases hj : j = it.item_id
            · rw [hj, lookup_assocSet_self]
              rcases hl : st.item_statuses.lookup it.item_id with _ | w
              · exact Or.inl rfl
              · exact Or.inr rfl
            · rw [lookup_assocSet_ne _ _ _ hj]
              exact Or.inl rfl
        · exact absurd hq (by simp)

/-- C2: capacity respect.  If every buyer starts the run within
capacity (workload = count of PurchaseListItems already on the date),
then after the assignment loop of `auto_assign_daily_orders` every
buyer's workload still does not exceed `max_daily_capacity`; moreover an
OrderItem's status is only ever changed to `assigned` (an item for which
no buyer has room is skipped, so it keeps its `pending` status). -/
theorem capacity_respected (env : AssignEnv) (st0 : AssignState)
    (items : List OrderItemRow)
    (hnd : (env.available_staff.map (fun s => s.staff_id)).Nodup)
    (hcap : ∀ s ∈ env.available_staff,
      ((st0.staff_workload.lookup s.staff_id).getD 0 : Int) ≤ s.max_daily_capacity) :
    (∀ s ∈ env.available_staff,
      (((auto_assign_daily_orders env st0 items).staff_workload.lookup s.staff_id).getD 0 :
        Int) ≤ s.max_daily_capacity) ∧
    (∀ j : Nat,
      (auto_assign_daily_orders env st0 items).item_statuses.lookup j =
        st0.item_statuses.lookup j ∨
      (auto_assign_daily_orders env st0 items).item_statuses.lookup j =
        some ItemSt.assigned) := by
  induction items generalizing st0 with
  | nil => exact ⟨hcap, fun j => Or.inl rfl⟩
  | cons it rest ih =>
    have hstep := assignItem_preserves env hnd st0 it hcap
    have hrest := ih (assignItem env st0 it) hstep.1
    refine ⟨hrest.1, fun j => ?_⟩
    rcases hrest.2 j with h1 | h1
    · rcases hstep.2 j with h2 | h2
      · exact Or.inl (by rw [show auto_assign_daily_orders env st0 (it :: rest) =
          auto_assign_daily_orders env (assignItem env st0 it) rest from rfl, h1, h2])
      · exact Or.inr (by rw [show auto_assign_daily_orders env st0 (it :: rest) =
          auto_assign_daily_orders env (assignItem env st0 it) rest from rfl, h1, h2])
    · exact Or.inr (by rw [show auto_assign_daily_orders env st0 (it :: rest) =
        auto_assign_daily_orders env (assignItem env st0 it) rest from rfl, h1])

/-- Witness for `capacity_respected`: one buyer with capacity 2, one
item with a single allocation. -/
theorem capacity_respected_witness :
    (∀ s ∈ ([⟨1, 2, none, none⟩] : List StaffRow),
      (((auto_assign_daily_orders
          ⟨[⟨1, 2, none, none⟩], [], [(1, ⟨1, "X", 1, [⟨1, "A", 1, 50⟩], 0⟩)]⟩
          ⟨[(1, 0)], [(1, [])], [(1, (0, 0))], [], [(1, ItemSt.pending)]⟩
          [⟨1, "X", 1⟩]).staff_workload.lookup s.staff_id).getD 0 : Int) ≤
        s.max_daily_capacity) ∧
    (∀ j : Nat,
      (auto_assign_daily_orders
          ⟨[⟨1, 2, none, none⟩], [], [(1, ⟨1, "X", 1, [⟨1, "A", 1, 50⟩], 0⟩)]⟩
          ⟨[(1, 0)], [(1, [])], [(1, (0, 0))], [], [(1, ItemSt.pending)]⟩
          [⟨1, "X", 1⟩]).item_statuses.lookup j =
        (⟨[(1, 0)], [(1, [])], [(1, (0, 0))], [], [(1, ItemSt.pending)]⟩ :
          AssignState).item_statuses.lookup j ∨
      (auto_assign_daily_orders
          ⟨[⟨1, 2, none, none⟩], [], [(1, ⟨1, "X", 1, [⟨1, "A", 1, 50⟩], 0⟩)]⟩
          ⟨[(1, 0)], [(1, [])], [(1, (0, 0))], [], [(1, ItemSt.pending)]⟩
          [⟨1, "X", 1⟩]).item_statuses.lookup j = some ItemSt.assigned) :=
  capacity_respected
    ⟨[⟨1, 2, none, none⟩], [], [(1, ⟨1, "X", 1, [⟨1, "A", 1, 50⟩], 0⟩)]⟩
    ⟨[(1, 0)], [(1, [])], [(1, (0, 0))], [], [(1, ItemSt.pending)]⟩
    [⟨1, "X", 1⟩] (by decide) (by decide)

/-! ## Route generation: schedule simulation
(src/backend/services/route_optimization.py, lines 159-216)

The stop-creation loop walks the optimized store order (produced by
Nearest-Neighbor + 2-opt; the theorems below quantify over an arbitrary
order, so they hold for whatever order the optimizer emits).  The
simulation clock is minutes from midnight of the target date (route
start 10:00 = minute 600); store `opening_hours` are modeled post-parse
as a weekday-indexed partial map of opening minutes (`none` stands for a
missing/unparseable entry, for which `_get_opening_time` returns None).
Python truthiness on coordinates and ids (`if lat and lng`,
`if store1_id and store2_id`) is "present and nonzero". -/

structure StoreT where
  store_id : Nat
  latitude : Option Rat
  longitude : Option Rat
  items_count : Int
  total_quantity : Int
  opening_hours : Option (Fin 7 → Option Nat)

def coordTruthy : Option Rat → Bool
  | none => false
  | some x => if x = 0 then false else true

def idTruthy : Option Nat → Bool
  | none => false
  | some n => if n = 0 then false else true

def storeHasCoords (s : StoreT) : Bool := coordTruthy s.latitude && coordTruthy s.longitude

/-- `_get_distance`: prefer the cached matrix entry for truthy store-id
pairs, else the Haversine fallback `hav`. -/
def getDistance (hav : Rat × Rat → Rat × Rat → Rat)
    (cache : List ((Nat × Nat) × Rat)) (lat1 lng1 lat2 lng2 : Rat)
    (id1 id2 : Option Nat) : Rat :=
  if idTruthy id1 && idTruthy id2 then
    match cache.lookup (id1.getD 0, id2.getD 0) with
    | some d => d
    | none => hav (lat1, lng1) (lat2, lng2)
  else hav (lat1, lng1) (lat2, lng2)

/-- `_get_opening_time` on the post-parse model: `None` opening_hours or
a missing weekday entry yield none. -/
def getOpeningTime (oh : Option (Fin 7 → Option Nat)) (wd : Fin 7) : Option Nat :=
  match oh with
  | none => none
  | some f => f wd

/-- `_adjust_for_opening_hours`: if the store opens after arrival,
return the opening time, else the arrival time. -/
def adjustForOpeningHours (arrival : Int) (oh : Option (Fin 7 → Option Nat))
    (wd : Fin 7) : Int :=
  match getOpeningTime oh wd with
  | some opens => if arrival < (opens : Int) then (opens : Int) else arrival
  | none => arrival

/-- `total_qty or items_count` (Python falsy-0 default). -/
def storeQty (s : StoreT) : Int :=
  if s.total_quantity = 0 then s.items_count else s.total_quantity

structure RouteStopRec where
  store_id : Nat
  stop_sequence : Nat
  estimated_arrival : Int
  items_to_purchase : List Nat
  items_count : Int
deriving Repr, DecidableEq

structure SimState where
  total_distance : Rat
  estimated_time : Int
  prev_lat : Rat
  prev_lng : Rat
  prev_store_id : Option Nat
  current_time : Int
  stops : List RouteStopRec

/-- `int(dist / AVERAGE_SPEED_KMH * 60) if dist > 0 else 0` with
`AVERAGE_SPEED_KMH = 25`: Python `int()` truncates toward zero, which on
the positive branch is the floor. -/
def travelMinutes (dist : Rat) : Int :=
  if 0 < dist then ⌊dist / 25 * 60⌋ else 0

/-- One iteration of the stop-creation loop of
`generate_route_for_staff` (lines 169-216): travel (when the store has
truthy coordinates), wait for opening, record the stop with
`stop_sequence = enumerate index + 1`, then shopping time
`5 + 2 × quantity`. -/
def simStep (hav : Rat × Rat → Rat × Rat → Rat) (cache : List ((Nat × Nat) × Rat))
    (wd : Fin 7) (itemsByStore : List (Nat × List Nat))
    (st : SimState) (s : StoreT) : SimState :=
  let hasC := storeHasCoords s
  let dist := getDistance hav cache st.prev_lat st.prev_lng
    (s.latitude.getD 0) (s.longitude.getD 0) st.prev_store_id (some s.store_id)
  let travel_time : Int := if hasC then travelMinutes dist else 0
  let st1 :=
    if hasC then
      { st with total_distance := st.total_distance + dist,
                current_time := st.current_time + travel_time,
                prev_lat := s.latitude.getD 0,
                prev_lng := s.longitude.getD 0,
                prev_store_id := some s.store_id }
    else st
  let adjusted := adjustForOpeningHours st1.current_time s.opening_hours wd
  let st2 :=
    if st1.current_time < adjusted then
      { st1 with estimated_time := st1.estimated_time + (adjusted - st1.current_time),
                 current_time := adjusted }
    else st1
  let stop := RouteStopRec.mk s.store_id (st2.stops.length + 1) st2.current_time
    ((itemsByStore.lookup s.store_id).getD []) (storeQty s)
  let shopping_time : Int := 5 + storeQty s * 2
  { st2 with stops := st2.stops ++ [stop],
             current_time := st2.current_time + shopping_time,
             estimated_time := st2.estimated_time + shopping_time + travel_time }

/-- The whole stop-creation loop, started from the staff start point at
the route start time (default 10:00 = minute 600) with no previous
store and no stops. -/
def simulateStops (hav : Rat × Rat → Rat × Rat → Rat)
    (cache : List ((Nat × Nat) × Rat)) (wd : Fin 7)
    (itemsByStore : List (Nat × List Nat)) (start_lat start_lng : Rat)
    (startTime : Int) (optimized_order : List StoreT) : SimState :=
  optimized_order.foldl (simStep hav cache wd itemsByStore)
    ⟨0, 0, start_lat, start_lng, none, startTime, []⟩

/-- The travel-minute contribution of one stop (0 for stores without
truthy coordinates, else the 25 km/h truncated minutes over the cached
or Haversine distance). -/
def simTravel (hav : Rat × Rat → Rat × Rat → Rat) (cache : List ((Nat × Nat) × Rat))
    (st : SimState) (s : StoreT) : Int :=
  if storeHasCoords s then
    travelMinutes (getDistance hav cache st.prev_lat st.prev_lng
      (s.latitude.getD 0) (s.longitude.getD 0) st.prev_store_id (some s.store_id))
  else 0

theorem adjust_eq_opens (arrival : Int) (oh : Option (Fin 7 → Option Nat))
    (wd : Fin 7) (opens : Nat) (h : getOpeningTime oh wd = some opens)
    (hlt : arrival < (opens : Int)) :
    adjustForOpeningHours arrival oh wd = opens := by
  unfold adjustForOpeningHours
  rw [h]
  show (if arrival < (opens : Int) then (opens : Int) else arrival) = opens
  rw [if_pos hlt]

/-- C8: opening-hours wait.  If the simulated clock after travelling to
a stop is strictly before that store's opening time for the weekday,
the created stop's `estimated_arrival` is the opening time, and the
estimated route time grows by wait + shopping + travel (so the wait
minutes are counted in `estimated_time_minutes`). -/
theorem opening_hours_wait (hav : Rat × Rat → Rat × Rat → Rat)
    (cache : List ((Nat × Nat) × Rat)) (wd : Fin 7)
    (ibs : List (Nat × List Nat)) (st : SimState) (s : StoreT) (opens : Nat)
    (ho : getOpeningTime s.opening_hours wd = some opens)
    (harr : st.current_time + simTravel hav cache st s < (opens : Int)) :
    (simStep hav cache wd ibs st s).stops =
      st.stops ++ [⟨s.store_id, st.stops.length + 1, (opens : Int),
        (ibs.lookup s.store_id).getD [], storeQty s⟩] ∧
    (simStep hav cache wd ibs st s).estimated_time =
      st.estimated_time +
        ((opens : Int) - (st.current_time + simTravel hav cache st s)) +
        (5 + storeQty s * 2) + simTravel hav cache st s := by
  by_cases hc : storeHasCoords s = true
  · have htr : simTravel hav cache st s =
      travelMinutes (getDistance hav cache st.prev_lat st.prev_lng
        (s.latitude.getD 0) (s.longitude.getD 0) st.prev_store_id (some s.store_id)) := by
      unfold simTravel
      rw [if_pos hc]
    rw [htr] at harr ⊢
    simp only [simStep, hc, if_true, if_pos hc]
    rw [adjust_eq_opens _ _ _ opens ho harr]
    rw [if_pos harr]
    constructor
    · rfl
    · ring
  · have htr : simTravel hav cache st s = 0 := by
      unfold simTravel
      rw [if_neg hc]
    rw [htr] at harr ⊢
    simp only [simStep, hc, if_false, Bool.false_eq_true, if_neg hc]
    rw [add_zero] at harr
    rw [adjust_eq_opens _ _ _ opens ho harr]
    rw [if_pos harr]
    constructor
    · rfl
    · ring

/-- A constant stand-in distance function: every Haversine fallback is
12.5 km (25 km/h ⇒ 30 travel minutes). -/
def hav125 : Rat × Rat → Rat × Rat → Rat := fun _ _ => 25 / 2

/-- S7 start state: clock at 10:00 (minute 600). -/
def simC8st : SimState := ⟨0, 0, 0, 0, none, 600, []⟩

/-- S7 store: opens 11:00 (minute 660) every weekday. -/
def simC8store : StoreT := ⟨1, some 1, some 1, 1, 1, some (fun _ => some 660)⟩

theorem simC8_travel : simTravel hav125 [] simC8st simC8store = 30 := by
  unfold simTravel storeHasCoords coordTruthy getDistance idTruthy travelMinutes
    hav125 simC8st simC8store
  norm_num

/-- Witness for `opening_hours_wait`: travel 30 minutes from a 10:00
start to a store opening 11:00 — arrival 11:00, 30 wait minutes
counted. -/
theorem opening_hours_wait_witness :
    (simStep hav125 [] 0 [] simC8st simC8store).stops =
      simC8st.stops ++ [⟨simC8store.store_id, simC8st.stops.length + 1, ((660 : Nat) : Int),
        (([] : List (Nat × List Nat)).lookup simC8store.store_id).getD [],
        storeQty simC8store⟩] ∧
    (simStep hav125 [] 0 [] simC8st simC8store).estimated_time =
      simC8st.estimated_time +
        (((660 : Nat) : Int) - (simC8st.current_time + simTravel hav125 [] simC8st simC8store)) +
        (5 + storeQty simC8store * 2) + simTravel hav125 [] simC8st simC8store :=
  opening_hours_wait hav125 [] 0 [] simC8st simC8store 660 rfl
    (by rw [simC8_travel]; norm_num [simC8st])

/-- A constant stand-in distance function: every distance is 2 km. -/
def hav2 : Rat × Rat → Rat × Rat → Rat := fun _ _ => 2

/-- C9 counterexample: a 2 km edge at 25 km/h is 4.8 minutes; the code
adds `int(4.8) = 4` travel minutes (estimated time 4 + 5 + 2×1 = 11),
while rounding to the nearest minute as the claim states would add 5
(total 12). -/
theorem travel_time_rounding_counterexample :
    (simulateStops hav2 [] 0 [] 0 0 600 [⟨1, some 1, some 1, 1, 1, none⟩]).estimated_time
      = 11 ∧
    round ((2 : Rat) / 25 * 60) + (5 + 1 * 2) = 12 := by
  constructor
  · show (simStep hav2 [] 0 [] ⟨0, 0, 0, 0, none, 600, []⟩
      ⟨1, some 1, some 1, 1, 1, none⟩).estimated_time = 11
    simp only [simStep, storeHasCoords, coordTruthy, idTruthy, getDistance, hav2,
      travelMinutes, adjustForOpeningHours, getOpeningTime, storeQty]
    norm_num
  · norm_num [round_eq]

/-- C9 amended: for every traversed edge (store with truthy coordinates
and positive distance `d`), the travel minutes added both to the clock
and to `estimated_time_minutes` are the TRUNCATED `⌊d × 60 / 25⌋`
(Python `int()`), not the nearest-minute rounding; the estimated time
grows by exactly truncated travel + opening wait + shopping. -/
theorem travel_time_truncated (hav : Rat × Rat → Rat × Rat → Rat)
    (cache : List ((Nat × Nat) × Rat)) (wd : Fin 7)
    (ibs : List (Nat × List Nat)) (st : SimState) (s : StoreT)
    (hc : storeHasCoords s = true)
    (hpos : 0 < getDistance hav cache st.prev_lat st.prev_lng
      (s.latitude.getD 0) (s.longitude.getD 0) st.prev_store_id (some s.store_id)) :
    simTravel hav cache st s =
      ⌊getDistance hav cache st.prev_lat st.prev_lng
        (s.latitude.getD 0) (s.longitude.getD 0) st.prev_store_id (some s.store_id)
        * 60 / 25⌋ ∧
    (simStep hav cache wd ibs st s).estimated_time =
      st.estimated_time +
        max 0 (adjustForOpeningHours
            (st.current_time + simTravel hav cache st s) s.opening_hours wd -
          (st.current_time + simTravel hav cache st s)) +
        (5 + storeQty s * 2) + simTravel hav cache st s := by
  have htr : simTravel hav cache st s =
      ⌊getDistance hav cache st.prev_lat st.prev_lng
        (s.latitude.getD 0) (s.longitude.getD 0) st.prev_store_id (some s.store_id)
        * 60 / 25⌋ := by
    unfold simTravel travelMinutes
    rw [if_pos hc, if_pos hpos, div_mul_eq_mul_div]
  refine ⟨htr, ?_⟩
  simp only [simStep, hc, if_true, if_pos hc]
  set d := getDistance hav cache st.prev_lat st.prev_lng
    (s.latitude.getD 0) (s.longitude.getD 0) st.prev_store_id (some s.store_id) with hd
  have htm : travelMinutes d = simTravel hav cache st s := by
    unfold simTravel
    rw [if_pos hc]
  rw [htm]
  set tv := simTravel hav cache st s with htv
  set adj := adjustForOpeningHours (st.current_time + tv) s.opening_hours wd with hadj
  have hge : st.current_time + tv ≤ adj := by
    rw [hadj]
    unfold adjustForOpeningHours
    cases getOpeningTime s.opening_hours wd with
    | none => exact le_refl _
    | some opens =>
      show st.current_time + tv ≤
        (if st.current_time + tv < (opens : Int) then (opens : Int) else st.current_time + tv)
      by_cases hlt : st.current_time + tv < (opens : Int)
      · rw [if_pos hlt]; omega
      · rw [if_neg hlt]
  by_cases hwait : st.current_time + tv < adj
  · rw [if_pos hwait]
    have : max 0 (adj - (st.current_time + tv)) = adj - (st.current_time + tv) := by omega
    rw [this]
  · rw [if_neg hwait]
    have : max 0 (adj - (st.current_time + tv)) = 0 := by omega
    rw [this]
    ring

def simC9st : SimState := ⟨0, 0, 0, 0, none, 600, []⟩

def simC9store : StoreT := ⟨1, some 1, some 1, 1, 1, none⟩

/-- Witness for `travel_time_truncated` at the 2 km edge. -/
theorem travel_time_truncated_witness :
    simTravel hav2 [] simC9st simC9store =
      ⌊getDistance hav2 [] simC9st.prev_lat simC9st.prev_lng
        (simC9store.latitude.getD 0) (simC9store.longitude.getD 0)
        simC9st.prev_store_id (some simC9store.store_id) * 60 / 25⌋ ∧
    (simStep hav2 [] 0 [] simC9st simC9store).estimated_time =
      simC9st.estimated_time +
        max 0 (adjustForOpeningHours
            (simC9st.current_time + simTravel hav2 [] simC9st simC9store)
            simC9store.opening_hours 0 -
          (simC9st.current_time + simTravel hav2 [] simC9st simC9store)) +
        (5 + storeQty simC9store * 2) + simTravel hav2 [] simC9st simC9store :=
  travel_time_truncated hav2 [] 0 [] simC9st simC9store
    (by norm_num [storeHasCoords, coordTruthy, simC9store])
    (by norm_num [getDistance, idTruthy, hav2, simC9st, simC9store])

theorem simStep_stops_map (hav : Rat × Rat → Rat × Rat → Rat)
    (cache : List ((Nat × Nat) × Rat)) (wd : Fin 7)
    (ibs : List (Nat × List Nat)) (st : SimState) (s : StoreT) :
    ((simStep hav cache wd ibs st s).stops).map (fun r => r.stop_sequence) =
      (st.stops.map (fun r => r.stop_sequence)) ++ [st.stops.length + 1] := by
  rcases hc : storeHasCoords s with _ | _
  · simp only [simStep, hc, Bool.false_eq_true, if_false]
    split
    · simp
    · simp
  · simp only [simStep, hc, if_true]
    split
    · simp
    · simp

/-- The per-step length growth of the stop list. -/
theorem simStep_stops_length (hav : Rat × Rat → Rat × Rat → Rat)
    (cache : List ((Nat × Nat) × Rat)) (wd : Fin 7)
    (ibs : List (Nat × List Nat)) (st : SimState) (s : StoreT) :
    (simStep hav cache wd ibs st s).stops.length = st.stops.length + 1 := by
  have h := congrArg List.length (simStep_stops_map hav cache wd ibs st s)
  simpa using h

theorem simulateStops_seq_aux (hav : Rat × Rat → Rat × Rat → Rat)
    (cache : List ((Nat × Nat) × Rat)) (wd : Fin 7)
    (ibs : List (Nat × List Nat)) (order : List StoreT) :
    ∀ st : SimState,
      st.stops.map (fun r => r.stop_sequence) = List.range' 1 st.stops.length →
      ((order.foldl (simStep hav cache wd ibs) st).stops).map (fun r => r.stop_sequence) =
        List.range' 1 (order.foldl (simStep hav cache wd ibs) st).stops.length := by
  induction order with
  | nil => intro st h; exact h
  | cons s rest ih =>
    intro st h
    apply ih
    rw [simStep_stops_map, simStep_stops_length, h, List.range'_1_concat]
    have : 1 + st.stops.length = st.stops.length + 1 := by omega
    rw [this]

/-! ## Stop reorder controller (src/backend/controllers/routes.py, lines 303-352) -/

structure StopRow where
  stop_id : Nat
  stop_sequence : Nat
deriving Repr, DecidableEq

/-- `enumerate(reorder.stop_ids, start=k)` as (sequence, stop_id)
pairs. -/
def enumeratePairsFrom (k : Nat) : List Nat → List (Nat × Nat)
  | [] => []
  | x :: xs => (k, x) :: enumeratePairsFrom (k + 1) xs

/-- The update loop of `reorder_route_stops_controller`: for each
(new_sequence, stop_id) pair, set that stop's `stop_sequence`. -/
def applyReorderPairs : List StopRow → List (Nat × Nat) → List StopRow
  | stops, [] => stops
  | stops, (seq, sid) :: rest =>
    applyReorderPairs
      (stops.map (fun s => if s.stop_id = sid then { s with stop_sequence := seq } else s))
      rest

/-- `reorder_route_stops_controller`: validate that the provided
`stop_ids`, AS A SET, equal the route's stop ids (HTTP 400 = `none`
otherwise), then renumber from 1 in the provided order. -/
def reorder_route_stops (stops : List StopRow) (stop_ids : List Nat) :
    Option (List StopRow) :=
  if (stops.map (fun s => s.stop_id)).toFinset = stop_ids.toFinset then
    some (applyReorderPairs stops (enumeratePairsFrom 1 stop_ids))
  else none

theorem applyReorderPairs_eq (ids : List Nat) :
    ∀ (k : Nat) (stops : List StopRow), ids.Nodup →
      applyReorderPairs stops (enumeratePairsFrom k ids) =
        stops.map (fun s =>
          if s.stop_id ∈ ids then StopRow.mk s.stop_id (k + ids.indexOf s.stop_id)
          else s) := by
  induction ids with
  | nil =>
    intro k stops _
    simp [enumeratePairsFrom, applyReorderPairs]
  | cons x xs ih =>
    intro k stops hnd
    rw [List.nodup_cons] at hnd
    rw [show enumeratePairsFrom k (x :: xs) = (k, x) :: enumeratePairsFrom (k + 1) xs
      from rfl]
    rw [show applyReorderPairs stops ((k, x) :: enumeratePairsFrom (k + 1) xs) =
      applyReorderPairs
        (stops.map (fun s => if s.stop_id = x then { s with stop_sequence := k } else s))
        (enumeratePairsFrom (k + 1) xs) from rfl]
    rw [ih (k + 1) _ hnd.2, List.map_map]
    apply List.map_congr_left
    intro s _
    by_cases hx : s.stop_id = x
    · simp only [Function.comp_apply, if_pos hx]
      have hnotmem : s.stop_id ∉ xs := by rw [hx]; exact hnd.1
      rw [if_neg (by exact hnotmem)]
      rw [if_pos (by rw [hx]; exact List.mem_cons_self x xs)]
      rw [hx, List.indexOf_cons_self]
      simp
    · simp only [Function.comp_apply, if_neg hx]
      by_cases hmem : s.stop_id ∈ xs
      · rw [if_pos hmem, if_pos (List.mem_cons_of_mem x hmem)]
        rw [List.indexOf_cons_ne _ (fun h => hx h.symm)]
        have : k + 1 + xs.indexOf s.stop_id = k + (xs.indexOf s.stop_id + 1) := by omega
        rw [this]
      · rw [if_neg hmem, if_neg (by
          intro h
          rcases List.mem_cons.mp h with h | h
          · exact hx h
          · exact hmem h)]

theorem map_indexOf_range (ids : List Nat) :
    ids.Nodup → ∀ k : Nat,
      ids.map (fun x => k + ids.indexOf x) = List.range' k ids.length := by
  induction ids with
  | nil => intro _ k; rfl
  | cons x xs ih =>
    intro hnd k
    rw [List.nodup_cons] at hnd
    rw [show List.range' k (x :: xs).length = k :: List.range' (k + 1) xs.length from rfl]
    rw [List.map_cons, List.indexOf_cons_self, Nat.add_zero]
    congr 1
    rw [← ih hnd.2 (k + 1)]
    apply List.map_congr_left
    intro y hy
    have hne : y ≠ x := fun h => hnd.1 (h ▸ hy)
    rw [List.indexOf_cons_ne _ (fun h => hne h.symm)]
    omega

/-- C7 amended: (generation) the stop-creation loop numbers the created
RouteStops `1..N` exactly, in order, for any optimized store order; and
(reorder) when the submitted `stop_ids` contain NO duplicates, the
reorder controller leaves the route's `stop_sequence` values a
permutation of `1..N`.  (With duplicate submitted ids the set-equality
validation still passes and denseness can break — see the
counterexample.) -/
theorem stop_sequences_dense :
    (∀ (hav : Rat × Rat → Rat × Rat → Rat) (cache : List ((Nat × Nat) × Rat))
        (wd : Fin 7) (ibs : List (Nat × List Nat)) (slat slng : Rat) (t0 : Int)
        (order : List StoreT),
      ((simulateStops hav cache wd ibs slat slng t0 order).stops).map
          (fun r => r.stop_sequence) =
        List.range' 1 (simulateStops hav cache wd ibs slat slng t0 order).stops.length) ∧
    (∀ (stops : List StopRow) (ids : List Nat) (result : List StopRow),
      (stops.map (fun s => s.stop_id)).Nodup → ids.Nodup →
      reorder_route_stops stops ids = some result →
      (result.map (fun s => s.stop_sequence)).Perm (List.range' 1 stops.length)) := by
  constructor
  · intro hav cache wd ibs slat slng t0 order
    exact simulateStops_seq_aux hav cache wd ibs order _ rfl
  · intro stops ids result hstops hids hres
    unfold reorder_route_stops at hres
    by_cases hset : (stops.map (fun s => s.stop_id)).toFinset = ids.toFinset
    · rw [if_pos hset, Option.some_inj] at hres
      subst hres
      rw [applyReorderPairs_eq ids 1 stops hids]
      have hmem : ∀ s ∈ stops, s.stop_id ∈ ids := by
        intro s hs
        have h1 : s.stop_id ∈ (stops.map (fun s => s.stop_id)).toFinset :=
          List.mem_toFinset.mpr (List.mem_map_of_mem (fun s => s.stop_id) hs)
        rw [hset] at h1
        exact List.mem_toFinset.mp h1
      have hmap : (stops.map (fun s =>
          if s.stop_id ∈ ids then StopRow.mk s.stop_id (1 + ids.indexOf s.stop_id)
          else s)).map (fun s => s.stop_sequence) =
          (stops.map (fun s => s.stop_id)).map (fun x => 1 + ids.indexOf x) := by
        rw [List.map_map, List.map_map]
        apply List.map_congr_left
        intro s hs
        simp only [Function.comp_apply, if_pos (hmem s hs)]
      rw [hmap]
      have hperm : ((stops.map (fun s => s.stop_id)).map (fun x => 1 + ids.indexOf x)).Perm
          (ids.map (fun x => 1 + ids.indexOf x)) :=
        List.Perm.map _ (List.perm_of_nodup_nodup_toFinset_eq hstops hids hset)
      rw [map_indexOf_range ids hids 1] at hperm
      have hlen : ids.length = stops.length := by
        have h := (List.perm_of_nodup_nodup_toFinset_eq hstops hids hset).length_eq
        simp at h
        omega
      rw [hlen] at hperm
      exact hperm
    · rw [if_neg hset] at hres
      exact absurd hres (by simp)

/-- C7 counterexample: duplicate submitted stop ids `[1, 1, 2]` pass the
set-equality validation of the reorder controller on a route with stops
{1, 2}, but the resulting sequences are {2, 3} — with a gap, not
`1..N`. -/
theorem reorder_duplicate_ids_counterexample :
    reorder_route_stops [⟨1, 1⟩, ⟨2, 2⟩] [1, 1, 2] = some [⟨1, 2⟩, ⟨2, 3⟩] ∧
    ¬ (([2, 3] : List Nat).Perm (List.range' 1 2)) := by
  constructor
  · decide
  · decide

/-- Witness for `stop_sequences_dense` (reorder part, duplicate-free
ids). -/
theorem stop_sequences_dense_witness :
    (([⟨1, 2⟩, ⟨2, 1⟩] : List StopRow).map (fun s => s.stop_sequence)).Perm
      (List.range' 1 ([⟨1, 5⟩, ⟨2, 9⟩] : List StopRow).length) :=
  stop_sequences_dense.2 [⟨1, 5⟩, ⟨2, 9⟩] [2, 1] [⟨1, 2⟩, ⟨2, 1⟩]
    (by decide) (by decide) (by decide)

/-! ## Execution tracker (src/backend/controllers/routes.py, lines 184-286)

`update_stop_controller` for one route: the route's stops, the purchase
list items of the route's list (`route.list_id`), the OrderItem rows and
the Order rows.  The authorization check (assigned buyer / supervisor /
admin) guards entry and does not affect the state transition, so it is
not part of the embedded transition.  Python truthiness
`if purchase_item.item_id:` is the `item_id ≠ 0` condition on the flip
loop (the implicated-orders JOIN has no such condition). -/

inductive StopSt
  | pending
  | current
  | completed
  | skipped
deriving Repr, DecidableEq

inductive RouteSt
  | not_started
  | in_progress
  | completed
  | cancelled
deriving Repr, DecidableEq

inductive OrdSt
  | pending
  | processing
  | assigned
  | in_progress
  | completed
  | partially_completed
  | failed
  | cancelled
deriving Repr, DecidableEq

structure RStop where
  stop_id : Nat
  store_id : Nat
  stop_status : StopSt
deriving Repr, DecidableEq

structure PLIRec where
  item_id : Nat
  store_id : Nat
deriving Repr, DecidableEq

structure OItemRec where
  item_id : Nat
  order_id : Nat
  item_status : ItemSt
deriving Repr, DecidableEq

structure OrdRec where
  order_id : Nat
  order_status : OrdSt
deriving Repr, DecidableEq

structure ExecState where
  stops : List RStop
  route_status : RouteSt
  list_items : List PLIRec
  items : List OItemRec
  orders : List OrdRec
deriving Repr, DecidableEq

/-- The per-order completion recomputation (lines 255-270): count the
order's purchased items; all purchased → `completed`, some →
`partially_completed`, none → unchanged. -/
def recomputeOrder (items : List OItemRec) (o : OrdRec) : OrdRec :=
  let all_items := items.filter (fun oi => oi.order_id = o.order_id)
  if all_items.isEmpty then o
  else
    let purchased_count :=
      (all_items.filter (fun oi => oi.item_status = ItemSt.purchased)).length
    if purchased_count = all_items.length then { o with order_status := OrdSt.completed }
    else if 0 < purchased_count then { o with order_status := OrdSt.partially_completed }
    else o

/-- `update_stop_controller` restricted to one route's state: find the
stop (404 → state unchanged), set its status; when it newly becomes
`completed`, flip the OrderItems referenced by the list items at that
stop's store to `purchased` and recompute every implicated Order;
finally, if every stop of the route is now `completed`, complete the
route. -/
def update_stop (st : ExecState) (sid : Nat) (newStatus : StopSt) : ExecState :=
  match st.stops.find? (fun s => s.stop_id = sid) with
  | none => st
  | some stop =>
    let oldStatus := stop.stop_status
    let stops1 := st.stops.map (fun s =>
      if s.stop_id = sid then { s with stop_status := newStatus } else s)
    let st1 : ExecState := { st with stops := stops1 }
    let st2 : ExecState :=
      if newStatus = StopSt.completed ∧ oldStatus ≠ StopSt.completed then
        let affected := st.list_items.filter (fun p => p.store_id = stop.store_id)
        let items1 := st.items.map (fun oi =>
          if ∃ p ∈ affected, p.item_id ≠ 0 ∧ p.item_id = oi.item_id then
            { oi with item_status := ItemSt.purchased }
          else oi)
        let orders1 := st.orders.map (fun o =>
          if ∃ oi ∈ items1, oi.order_id = o.order_id ∧
              ∃ p ∈ affected, p.item_id = oi.item_id then
            recomputeOrder items1 o
          else o)
        { st1 with items := items1, orders := orders1 }
      else st1
    if newStatus = StopSt.completed then
      if st2.stops ≠ [] ∧ ∀ s ∈ st2.stops, s.stop_status = StopSt.completed then
        { st2 with route_status := RouteSt.completed }
      else st2
    else st2

/-- Marking a list of stops completed, one `update_stop` call each. -/
def run_stop_updates (st : ExecState) (sids : List Nat) : ExecState :=
  sids.foldl (fun s sid => update_stop s sid StopSt.completed) st

/-- Stores of the stops already marked in `done` (used to describe the
intermediate states of a completion run). -/
def storesOf (st : ExecState) (done : List Nat) : List Nat :=
  (st.stops.filter (fun s => s.stop_id ∈ done)).map (fun s => s.store_id)

/-- An OrderItem is touched once some processed stop's store carries a
list item referencing it (with truthy item id). -/
def touchedItem (st : ExecState) (done : List Nat) (oi : OItemRec) : Prop :=
  ∃ p ∈ st.list_items, p.item_id = oi.item_id ∧ p.item_id ≠ 0 ∧
    p.store_id ∈ storesOf st done

instance (st : ExecState) (done : List Nat) (oi : OItemRec) :
    Decidable (touchedItem st done oi) := by
  unfold touchedItem
  exact inferInstance

def itemsAt (st : ExecState) (done : List Nat) : List OItemRec :=
  st.items.map (fun oi =>
    if touchedItem st done oi then { oi with item_status := ItemSt.purchased } else oi)

/-- An Order is touched once some processed stop's store carries a list
item referencing one of its items (the implicated-orders JOIN). -/
def orderTouched (st : ExecState) (done : List Nat) (o : OrdRec) : Prop :=
  ∃ oi ∈ st.items, oi.order_id = o.order_id ∧
    ∃ p ∈ st.list_items, p.item_id = oi.item_id ∧ p.store_id ∈ storesOf st done

instance (st : ExecState) (done : List Nat) (o : OrdRec) :
    Decidable (orderTouched st done o) := by
  unfold orderTouched
  exact inferInstance

/-- The status an implicated order ends with: `completed` when all its
items are purchased, else `partially_completed` (an implicated order
always has at least one purchased item). -/
def finalizeOrder (items : List OItemRec) (o : OrdRec) : OrdRec :=
  if ∀ oi ∈ items, oi.order_id = o.order_id → oi.item_status = ItemSt.purchased then
    { o with order_status := OrdSt.completed }
  else { o with order_status := OrdSt.partially_completed }

def ordersAt (st : ExecState) (done : List Nat) : List OrdRec :=
  st.orders.map (fun o =>
    if orderTouched st done o then finalizeOrder (itemsAt st done) o else o)

def stopsAt (st : ExecState) (done : List Nat) : List RStop :=
  st.stops.map (fun s =>
    if s.stop_id ∈ done then { s with stop_status := StopSt.completed } else s)

def routeAt (st : ExecState) (done : List Nat) : RouteSt :=
  if done ≠ [] ∧ ∀ s ∈ st.stops, s.stop_id ∈ done then RouteSt.completed
  else st.route_status

/-- The state of a completion run after processing the stops in
`done`. -/
def ExecInv (st : ExecState) (done : List Nat) (s : ExecState) : Prop :=
  s.stops = stopsAt st done ∧ s.route_status = routeAt st done ∧
  s.list_items = st.list_items ∧ s.items = itemsAt st done ∧
  s.orders = ordersAt st done

theorem mem_storesOf (st : ExecState) (done : List Nat) (y : Nat) :
    y ∈ storesOf st done ↔ ∃ s ∈ st.stops, s.stop_id ∈ done ∧ s.store_id = y := by
  unfold storesOf
  simp only [List.mem_map, List.mem_filter, decide_eq_true_eq]
  tauto

theorem mem_storesOf_append (st : ExecState)
    (h2 : (st.stops.map (fun s => s.stop_id)).Nodup)
    (x : RStop) (hx : x ∈ st.stops) (done : List Nat) (y : Nat) :
    y ∈ storesOf st (done ++ [x.stop_id]) ↔
      y ∈ storesOf st done ∨ y = x.store_id := by
  rw [mem_storesOf, mem_storesOf]
  constructor
  · rintro ⟨s, hs, hmem, hst⟩
    rcases List.mem_append.mp hmem with h | h
    · exact Or.inl ⟨s, hs, h, hst⟩
    · have : s = x := List.inj_on_of_nodup_map h2 hs hx (List.mem_singleton.mp h)
      subst this
      exact Or.inr hst.symm
  · rintro (⟨s, hs, hmem, hst⟩ | h)
    · exact ⟨s, hs, List.mem_append_left _ hmem, hst⟩
    · exact ⟨x, hx, List.mem_append_right _ (List.mem_singleton.mpr rfl), h.symm⟩

theorem find?_map_of_nodup (f : RStop → RStop)
    (hf : ∀ s, (f s).stop_id = s.stop_id) :
    ∀ (l : List RStop), (l.map (fun s => s.stop_id)).Nodup → ∀ x ∈ l,
      (l.map f).find? (fun s => s.stop_id = x.stop_id) = some (f x) := by
  intro l
  induction l with
  | nil => intro _ x hx; simp at hx
  | cons y rest ih =>
    intro hnd x hx
    simp only [List.map_cons, List.nodup_cons] at hnd
    rcases List.mem_cons.mp hx with h | h
    · subst h
      simp [List.find?, hf]
    · have hne : ¬ (y.stop_id = x.stop_id) := by
        intro he
        exact hnd.1 (he ▸ List.mem_map_of_mem (fun s => s.stop_id) h)
      rw [List.map_cons, List.find?_cons_of_neg, ih hnd.2 x h]
      simp [hf, hne]

theorem touchedItem_append (st : ExecState)
    (h2 : (st.stops.map (fun s => s.stop_id)).Nodup)
    (x : RStop) (hx : x ∈ st.stops) (done : List Nat) (oi : OItemRec) :
    touchedItem st (done ++ [x.stop_id]) oi ↔
      touchedItem st done oi ∨
      ∃ p ∈ st.list_items, p.item_id = oi.item_id ∧ p.item_id ≠ 0 ∧
        p.store_id = x.store_id := by
  unfold touchedItem
  simp_rw [mem_storesOf_append st h2 x hx done]
  constructor
  · rintro ⟨p, hp, ha, hb, hc | hc⟩
    · exact Or.inl ⟨p, hp, ha, hb, hc⟩
    · exact Or.inr ⟨p, hp, ha, hb, hc⟩
  · rintro (⟨p, hp, ha, hb, hc⟩ | ⟨p, hp, ha, hb, hc⟩)
    · exact ⟨p, hp, ha, hb, Or.inl hc⟩
    · exact ⟨p, hp, ha, hb, Or.inr hc⟩

theorem orderTouched_append (st : ExecState)
    (h2 : (st.stops.map (fun s => s.stop_id)).Nodup)
    (x : RStop) (hx : x ∈ st.stops) (done : List Nat) (o : OrdRec) :
    orderTouched st (done ++ [x.stop_id]) o ↔
      orderTouched st done o ∨
      ∃ oi ∈ st.items, oi.order_id = o.order_id ∧
        ∃ p ∈ st.list_items, p.item_id = oi.item_id ∧ p.store_id = x.store_id := by
  unfold orderTouched
  simp_rw [mem_storesOf_append st h2 x hx done]
  constructor
  · rintro ⟨oi, hoi, ha, p, hp, hb, hc | hc⟩
    · exact Or.inl ⟨oi, hoi, ha, p, hp, hb, hc⟩
    · exact Or.inr ⟨oi, hoi, ha, p, hp, hb, hc⟩
  · rintro (⟨oi, hoi, ha, p, hp, hb, hc⟩ | ⟨oi, hoi, ha, p, hp, hb, hc⟩)
    · exact ⟨oi, hoi, ha, p, hp, hb, Or.inl hc⟩
    · exact ⟨oi, hoi, ha, p, hp, hb, Or.inr hc⟩

theorem recomputeOrder_eq_finalize (items : List OItemRec) (o : OrdRec)
    (hw : ∃ oi ∈ items, oi.order_id = o.order_id ∧ oi.item_status = ItemSt.purchased) :
    recomputeOrder items o = finalizeOrder items o := by
  obtain ⟨oi, hoi, hord, hst⟩ := hw
  unfold recomputeOrder finalizeOrder
  have hmemf : oi ∈ items.filter (fun oi => oi.order_id = o.order_id) :=
    List.mem_filter.mpr ⟨hoi, by simp [hord]⟩
  rw [if_neg (by
    intro he
    rw [List.isEmpty_iff] at he
    rw [he] at hmemf
    simp at hmemf)]
  by_cases hall : ∀ y ∈ items, y.order_id = o.order_id → y.item_status = ItemSt.purchased
  · rw [if_pos (by
      rw [List.filter_length_eq_length]
      intro a ha
      rw [List.mem_filter] at ha
      simp only [decide_eq_true_eq] at ha ⊢
      exact hall a ha.1 ha.2), if_pos hall]
  · rw [if_neg (by
      rw [List.filter_length_eq_length]
      intro hc
      apply hall
      intro y hy hyo
      have := hc y (List.mem_filter.mpr ⟨hy, by simp [hyo]⟩)
      simpa using this)]
    rw [if_pos (by
      apply List.length_pos_of_mem
      exact List.mem_filter.mpr ⟨hmemf, by simp [hst]⟩), if_neg hall]

theorem itemsAt_step (st : ExecState)
    (h2 : (st.stops.map (fun s => s.stop_id)).Nodup)
    (x : RStop) (hx : x ∈ st.stops) (done : List Nat) (affected : List PLIRec)
    (haff : affected = st.list_items.filter (fun q => q.store_id = x.store_id)) :
    (itemsAt st done).map (fun oi =>
      if ∃ p ∈ affected, p.item_id ≠ 0 ∧ p.item_id = oi.item_id then
        { oi with item_status := ItemSt.purchased }
      else oi) = itemsAt st (done ++ [x.stop_id]) := by
  unfold itemsAt
  rw [List.map_map]
  apply List.map_congr_left
  intro oi0 _
  simp only [Function.comp_apply]
  have hflip : ∀ z : OItemRec, z.item_id = oi0.item_id →
      ((∃ p ∈ affected, p.item_id ≠ 0 ∧ p.item_id = z.item_id) ↔
      (∃ p ∈ st.list_items, p.item_id = oi0.item_id ∧ p.item_id ≠ 0 ∧
        p.store_id = x.store_id)) := by
    intro z hz
    rw [hz, haff]
    simp only [List.mem_filter, decide_eq_true_eq]
    tauto
  by_cases ht : touchedItem st done oi0
  · rw [if_pos ht]
    have htd : touchedItem st (done ++ [x.stop_id]) oi0 := by
      rw [touchedItem_append st h2 x hx done oi0]
      exact Or.inl ht
    rw [if_pos htd]
    split
    · rfl
    · rfl
  · rw [if_neg ht]
    by_cases hc : ∃ p ∈ st.list_items, p.item_id = oi0.item_id ∧ p.item_id ≠ 0 ∧
        p.store_id = x.store_id
    · rw [if_pos ((hflip oi0 rfl).mpr hc)]
      rw [if_pos (by
        rw [touchedItem_append st h2 x hx done oi0]
        exact Or.inr hc)]
    · rw [if_neg (fun h => hc ((hflip oi0 rfl).mp h))]
      rw [if_neg (by
        rw [touchedItem_append st h2 x hx done oi0]
        rintro (h | h)
        · exact ht h
        · exact hc h)]

theorem finalizeOrder_update (items : List OItemRec) (o : OrdRec) (c : OrdSt) :
    finalizeOrder items { o with order_status := c } = finalizeOrder items o := rfl

theorem finalizeOrder_of_finalizeOrder (items J : List OItemRec) (o : OrdRec) :
    finalizeOrder items (finalizeOrder J o) = finalizeOrder items o := by
  by_cases h : ∀ oi ∈ J, oi.order_id = o.order_id → oi.item_status = ItemSt.purchased
  · rw [show finalizeOrder J o = { o with order_status := OrdSt.completed } from by
      unfold finalizeOrder
      rw [if_pos h]]
    exact finalizeOrder_update items o _
  · rw [show finalizeOrder J o = { o with order_status := OrdSt.partially_completed } from by
      unfold finalizeOrder
      rw [if_neg h]]
    exact finalizeOrder_update items o _

theorem stopsAt_step (st : ExecState) (x : RStop) (done : List Nat) :
    (stopsAt st done).map (fun t =>
      if t.stop_id = x.stop_id then { t with stop_status := StopSt.completed } else t) =
      stopsAt st (done ++ [x.stop_id]) := by
  unfold stopsAt
  rw [List.map_map]
  apply List.map_congr_left
  intro t _
  simp only [Function.comp_apply]
  by_cases hmem : t.stop_id ∈ done
  · rw [if_pos hmem, if_pos (List.mem_append_left _ hmem)]
    by_cases ha : t.stop_id = x.stop_id
    · rw [if_pos (show ({ t with stop_status := StopSt.completed } : RStop).stop_id =
        x.stop_id from ha)]
    · rw [if_neg (show ¬ (({ t with stop_status := StopSt.completed } : RStop).stop_id =
        x.stop_id) from ha)]
  · rw [if_neg hmem]
    by_cases ha : t.stop_id = x.stop_id
    · rw [if_pos ha, if_pos (List.mem_append_right _ (List.mem_singleton.mpr ha))]
    · rw [if_neg ha, if_neg (by
        intro h
        rcases List.mem_append.mp h with h | h
        · exact hmem h
        · exact ha (List.mem_singleton.mp h))]

theorem storesOf_append_of_mem (st : ExecState)
    (h2 : (st.stops.map (fun s => s.stop_id)).Nodup)
    (x : RStop) (hx : x ∈ st.stops) (done : List Nat)
    (hdone : x.stop_id ∈ done) (y : Nat) :
    y ∈ storesOf st (done ++ [x.stop_id]) ↔ y ∈ storesOf st done := by
  rw [mem_storesOf_append st h2 x hx]
  constructor
  · rintro (h | h)
    · exact h
    · rw [mem_storesOf]
      exact ⟨x, hx, hdone, h.symm⟩
  · exact Or.inl

theorem itemsAt_congr (st : ExecState) (d1 d2 : List Nat)
    (h : ∀ y, y ∈ storesOf st d1 ↔ y ∈ storesOf st d2) :
    itemsAt st d1 = itemsAt st d2 := by
  unfold itemsAt
  apply List.map_congr_left
  intro oi _
  have hiff : touchedItem st d1 oi ↔ touchedItem st d2 oi := by
    unfold touchedItem
    simp_rw [h]
  by_cases ht : touchedItem st d1 oi
  · rw [if_pos ht, if_pos (hiff.mp ht)]
  · rw [if_neg ht, if_neg (fun hh => ht (hiff.mpr hh))]

theorem ordersAt_congr (st : ExecState) (d1 d2 : List Nat)
    (h : ∀ y, y ∈ storesOf st d1 ↔ y ∈ storesOf st d2) :
    ordersAt st d1 = ordersAt st d2 := by
  unfold ordersAt
  rw [itemsAt_congr st d1 d2 h]
  apply List.map_congr_left
  intro o _
  have hiff : orderTouched st d1 o ↔ orderTouched st d2 o := by
    unfold orderTouched
    simp_rw [h]
  by_cases ht : orderTouched st d1 o
  · rw [if_pos ht, if_pos (hiff.mp ht)]
  · rw [if_neg ht, if_neg (fun hh => ht (hiff.mpr hh))]

theorem itemsAt_map_order_id (st : ExecState) (done : List Nat) (oi0 : OItemRec) :
    ((if touchedItem st done oi0 then { oi0 with item_status := ItemSt.purchased }
      else oi0) : OItemRec).order_id = oi0.order_id := by
  split
  · rfl
  · rfl

theorem itemsAt_map_item_id (st : ExecState) (done : List Nat) (oi0 : OItemRec) :
    ((if touchedItem st done oi0 then { oi0 with item_status := ItemSt.purchased }
      else oi0) : OItemRec).item_id = oi0.item_id := by
  split
  · rfl
  · rfl

theorem finalizeOrder_order_id (J : List OItemRec) (o : OrdRec) :
    (finalizeOrder J o).order_id = o.order_id := by
  unfold finalizeOrder
  split
  · rfl
  · rfl

theorem ordersAt_step (st : ExecState)
    (h2 : (st.stops.map (fun s => s.stop_id)).Nodup)
    (x : RStop) (hx : x ∈ st.stops) (done : List Nat)
    (h7 : ∀ p ∈ st.list_items, p.item_id ≠ 0)
    (affected : List PLIRec)
    (haff : affected = st.list_items.filter (fun q => q.store_id = x.store_id))
    (items1 : List OItemRec)
    (hitems : items1 = itemsAt st (done ++ [x.stop_id])) :
    (ordersAt st done).map (fun o =>
      if ∃ oi ∈ items1, oi.order_id = o.order_id ∧
          ∃ p ∈ affected, p.item_id = oi.item_id then
        recomputeOrder items1 o
      else o) = ordersAt st (done ++ [x.stop_id]) := by
  have hxstore : x.store_id ∈ storesOf st (done ++ [x.stop_id]) := by
    rw [mem_storesOf]
    exact ⟨x, hx, List.mem_append_right _ (List.mem_singleton.mpr rfl), rfl⟩
  unfold ordersAt
  rw [List.map_map]
  apply List.map_congr_left
  intro o0 _
  simp only [Function.comp_apply]
  have hcondP : ∀ z : OrdRec, z.order_id = o0.order_id →
      ((∃ oi ∈ items1, oi.order_id = z.order_id ∧
          ∃ p ∈ affected, p.item_id = oi.item_id) ↔
        (∃ oi ∈ st.items, oi.order_id = o0.order_id ∧
          ∃ p ∈ st.list_items, p.item_id = oi.item_id ∧ p.store_id = x.store_id)) := by
    intro z hz
    rw [hz, hitems, haff]
    unfold itemsAt
    constructor
    · rintro ⟨oi, hoi, hord, p, hp, hpid⟩
      rw [List.mem_map] at hoi
      obtain ⟨oi0, hoi0, rfl⟩ := hoi
      rw [List.mem_filter] at hp
      rw [itemsAt_map_order_id] at hord
      rw [itemsAt_map_item_id] at hpid
      exact ⟨oi0, hoi0, hord, p, hp.1, hpid, by simpa using hp.2⟩
    · rintro ⟨oi0, hoi0, hord, p, hp, hpid, hpst⟩
      refine ⟨(if touchedItem st (done ++ [x.stop_id]) oi0 then
          { oi0 with item_status := ItemSt.purchased } else oi0),
        List.mem_map_of_mem _ hoi0, ?_, p,
        List.mem_filter.mpr ⟨hp, by simp [hpst]⟩, ?_⟩
      · rw [itemsAt_map_order_id]
        exact hord
      · rw [itemsAt_map_item_id]
        exact hpid
  by_cases hnew : ∃ oi ∈ st.items, oi.order_id = o0.order_id ∧
      ∃ p ∈ st.list_items, p.item_id = oi.item_id ∧ p.store_id = x.store_id
  · -- the stop's store newly implicates this order
    have hw1 : ∃ oi ∈ items1, oi.order_id = o0.order_id ∧
        oi.item_status = ItemSt.purchased := by
      obtain ⟨oi0, hoi0, hord, p, hp, hpid, hpst⟩ := hnew
      have htch : touchedItem st (done ++ [x.stop_id]) oi0 :=
        ⟨p, hp, hpid, h7 p hp, hpst ▸ hxstore⟩
      refine ⟨{ oi0 with item_status := ItemSt.purchased }, ?_, hord, rfl⟩
      rw [hitems]
      unfold itemsAt
      have : ({ oi0 with item_status := ItemSt.purchased } : OItemRec) =
          (if touchedItem st (done ++ [x.stop_id]) oi0 then
            { oi0 with item_status := ItemSt.purchased } else oi0) := by
        rw [if_pos htch]
      rw [this]
      exact List.mem_map_of_mem _ hoi0
    have htd' : orderTouched st (done ++ [x.stop_id]) o0 := by
      rw [orderTouched_append st h2 x hx done o0]
      exact Or.inr hnew
    rw [if_pos htd']
    by_cases htd : orderTouched st done o0
    · rw [if_pos htd]
      have hordf : (finalizeOrder (itemsAt st done) o0).order_id = o0.order_id :=
        finalizeOrder_order_id _ _
      rw [if_pos ((hcondP _ hordf).mpr hnew)]
      rw [recomputeOrder_eq_finalize items1 _ (by
        obtain ⟨oi, hoi, hord, hst⟩ := hw1
        exact ⟨oi, hoi, by rw [hordf, hord], hst⟩)]
      rw [finalizeOrder_of_finalizeOrder, hitems]
    · rw [if_neg htd]
      rw [if_pos ((hcondP o0 rfl).mpr hnew)]
      rw [recomputeOrder_eq_finalize items1 o0 hw1, hitems]
  · -- not newly implicated
    by_cases htd : orderTouched st done o0
    · rw [if_pos htd]
      have hordf : (finalizeOrder (itemsAt st done) o0).order_id = o0.order_id :=
        finalizeOrder_order_id _ _
      rw [if_neg (fun h => hnew ((hcondP _ hordf).mp h))]
      rw [if_pos (by
        rw [orderTouched_append st h2 x hx done o0]
        exact Or.inl htd)]
      -- the order's items are untouched by this stop
      unfold finalizeOrder
      have hc : (∀ oi ∈ itemsAt st done, oi.order_id = o0.order_id →
          oi.item_status = ItemSt.purchased) ↔
          (∀ oi ∈ itemsAt st (done ++ [x.stop_id]), oi.order_id = o0.order_id →
            oi.item_status = ItemSt.purchased) := by
        unfold itemsAt
        constructor
        · intro h oi hoi hord
          rw [List.mem_map] at hoi
          obtain ⟨oi0, hoi0, rfl⟩ := hoi
          rw [itemsAt_map_order_id] at hord
          have hprev := h (if touchedItem st done oi0 then
            { oi0 with item_status := ItemSt.purchased } else oi0)
            (List.mem_map_of_mem _ hoi0) (by rw [itemsAt_map_order_id]; exact hord)
          by_cases ht1 : touchedItem st (done ++ [x.stop_id]) oi0
          · rw [if_pos ht1]
          · rw [if_neg ht1]
            rw [if_neg (fun hh => ht1 (by
              rw [touchedItem_append st h2 x hx done oi0]
              exact Or.inl hh))] at hprev
            exact hprev
        · intro h oi hoi hord
          rw [List.mem_map] at hoi
          obtain ⟨oi0, hoi0, rfl⟩ := hoi
          rw [itemsAt_map_order_id] at hord
          have hnext := h (if touchedItem st (done ++ [x.stop_id]) oi0 then
            { oi0 with item_status := ItemSt.purchased } else oi0)
            (List.mem_map_of_mem _ hoi0) (by rw [itemsAt_map_order_id]; exact hord)
          by_cases ht1 : touchedItem st done oi0
          · rw [if_pos ht1]
          · rw [if_neg ht1]
            rw [if_neg (by
              rw [touchedItem_append st h2 x hx done oi0]
              rintro (hh | hh)
              · exact ht1 hh
              · obtain ⟨p, hp, hpid, hpne, hpst⟩ := hh
                exact hnew ⟨oi0, hoi0, hord, p, hp, hpid, hpst⟩)] at hnext
            exact hnext
      by_cases hall : ∀ oi ∈ itemsAt st done, oi.order_id = o0.order_id →
          oi.item_status = ItemSt.purchased
      · rw [if_pos hall, if_pos (hc.mp hall)]
      · rw [if_neg hall, if_neg (fun hh => hall (hc.mpr hh))]
    · rw [if_neg htd]
      rw [if_neg (fun h => hnew ((hcondP o0 rfl).mp h))]
      rw [if_neg (by
        rw [orderTouched_append st h2 x hx done o0]
        rintro (hh | hh)
        · exact htd hh
        · exact hnew hh)]

theorem exec_route_finish (st : ExecState)
    (h1 : st.stops ≠ [])
    (h3 : ∀ t ∈ st.stops, t.stop_status ≠ StopSt.completed)
    (done done' : List Nat) (hsub : ∀ i ∈ done, i ∈ done') (hne : done' ≠ [])
    (s2 : ExecState)
    (hs : s2.stops = stopsAt st done')
    (hr : s2.route_status = routeAt st done)
    (hli : s2.list_items = st.list_items)
    (hi : s2.items = itemsAt st done')
    (ho : s2.orders = ordersAt st done') :
    ExecInv st done'
      (if s2.stops ≠ [] ∧ ∀ t ∈ s2.stops, t.stop_status = StopSt.completed then
        { s2 with route_status := RouteSt.completed } else s2) := by
  have hCiff : (s2.stops ≠ [] ∧ ∀ t ∈ s2.stops, t.stop_status = StopSt.completed) ↔
      (∀ t ∈ st.stops, t.stop_id ∈ done') := by
    rw [hs]
    constructor
    · rintro ⟨hne2, hall⟩ t ht
      have hh := hall (if t.stop_id ∈ done' then
        { t with stop_status := StopSt.completed } else t)
        (List.mem_map_of_mem _ ht)
      by_cases hm : t.stop_id ∈ done'
      · exact hm
      · rw [if_neg hm] at hh
        exact absurd hh (h3 t ht)
    · intro hall
      constructor
      · unfold stopsAt
        intro hmap
        exact h1 (List.map_eq_nil_iff.mp hmap)
      · intro t ht
        unfold stopsAt at ht
        rw [List.mem_map] at ht
        obtain ⟨t0, ht0, rfl⟩ := ht
        rw [if_pos (hall t0 ht0)]
  by_cases hC : s2.stops ≠ [] ∧ ∀ t ∈ s2.stops, t.stop_status = StopSt.completed
  · rw [if_pos hC]
    refine ⟨hs, ?_, hli, hi, ho⟩
    show RouteSt.completed = routeAt st done'
    unfold routeAt
    rw [if_pos ⟨hne, hCiff.mp hC⟩]
  · rw [if_neg hC]
    refine ⟨hs, ?_, hli, hi, ho⟩
    rw [hr]
    have hnall : ¬ ∀ t ∈ st.stops, t.stop_id ∈ done' := fun h => hC (hCiff.mpr h)
    unfold routeAt
    have hc1 : ¬ (done ≠ [] ∧ ∀ t ∈ st.stops, t.stop_id ∈ done) := by
      rintro ⟨hd, hall⟩
      exact hnall (fun t ht => hsub t.stop_id (hall t ht))
    have hc2 : ¬ (done' ≠ [] ∧ ∀ t ∈ st.stops, t.stop_id ∈ done') := fun h => hnall h.2
    rw [if_neg hc1, if_neg hc2]

theorem update_stop_step (st : ExecState)
    (h1 : st.stops ≠ [])
    (h2 : (st.stops.map (fun s => s.stop_id)).Nodup)
    (h3 : ∀ t ∈ st.stops, t.stop_status ≠ StopSt.completed)
    (h7 : ∀ p ∈ st.list_items, p.item_id ≠ 0)
    (done : List Nat) (s : ExecState) (hinv : ExecInv st done s)
    (x : RStop) (hx : x ∈ st.stops) :
    ExecInv st (done ++ [x.stop_id]) (update_stop s x.stop_id StopSt.completed) := by
  obtain ⟨hstops, hroute, hli, hitems, horders⟩ := hinv
  have hf_pres : ∀ t : RStop, ((if t.stop_id ∈ done then
      { t with stop_status := StopSt.completed } else t) : RStop).stop_id = t.stop_id := by
    intro t
    split
    · rfl
    · rfl
  have hfind : s.stops.find? (fun t => t.stop_id = x.stop_id) =
      some (if x.stop_id ∈ done then { x with stop_status := StopSt.completed } else x) := by
    rw [hstops]
    exact find?_map_of_nodup _ hf_pres st.stops h2 x hx
  have hne : done ++ [x.stop_id] ≠ [] := by simp
  have hsub : ∀ i ∈ done, i ∈ done ++ [x.stop_id] := fun i hi => List.mem_append_left _ hi
  have hstops1 : s.stops.map (fun t => if t.stop_id = x.stop_id then
      { t with stop_status := StopSt.completed } else t) =
      stopsAt st (done ++ [x.stop_id]) := by
    rw [hstops]
    exact stopsAt_step st x done
  by_cases hdone : x.stop_id ∈ done
  · -- this stop was already completed: the cascade is skipped
    have hfind2 : s.stops.find? (fun t => t.stop_id = x.stop_id) =
        some { x with stop_status := StopSt.completed } := by
      rw [hfind, if_pos hdone]
    have hsame : ∀ y, y ∈ storesOf st (done ++ [x.stop_id]) ↔ y ∈ storesOf st done :=
      storesOf_append_of_mem st h2 x hx done hdone
    simp only [update_stop, hfind2]
    rw [if_neg (show ¬ (True ∧ StopSt.completed ≠ StopSt.completed) by simp)]
    rw [if_pos trivial]
    exact exec_route_finish st h1 h3 done _ hsub hne _ hstops1 hroute hli
      (by rw [hitems]
          exact itemsAt_congr st done (done ++ [x.stop_id]) (fun y => (hsame y).symm))
      (by rw [horders]
          exact ordersAt_congr st done (done ++ [x.stop_id]) (fun y => (hsame y).symm))
  · -- newly completed: the cascade runs
    have hfind2 : s.stops.find? (fun t => t.stop_id = x.stop_id) = some x := by
      rw [hfind, if_neg hdone]
    have hitems1 := itemsAt_step st h2 x hx done _ rfl
    have horders1 := ordersAt_step st h2 x hx done h7 _ rfl _ hitems1
    rw [← hli, ← hitems] at hitems1
    rw [← hli, ← hitems, ← horders] at horders1
    simp only [update_stop, hfind2]
    rw [if_pos (show True ∧ x.stop_status ≠ StopSt.completed from ⟨trivial, h3 x hx⟩)]
    rw [if_pos trivial]
    exact exec_route_finish st h1 h3 done _ hsub hne _ hstops1 hroute hli hitems1 horders1

theorem exec_inv_init (st : ExecState) : ExecInv st [] st := by
  refine ⟨?_, ?_, rfl, ?_, ?_⟩
  · unfold stopsAt
    rw [show st.stops = st.stops.map (fun t => t) from (List.map_id' st.stops).symm]
    rw [List.map_map]
    apply List.map_congr_left
    intro t _
    simp
  · unfold routeAt
    rw [if_neg (by simp)]
  · unfold itemsAt
    rw [show st.items = st.items.map (fun oi => oi) from (List.map_id' st.items).symm]
    rw [List.map_map]
    apply List.map_congr_left
    intro oi _
    simp only [Function.comp_apply]
    rw [if_neg (by
      rintro ⟨p, hp, ha, hb, hc⟩
      rw [mem_storesOf] at hc
      obtain ⟨t, ht, hmem, hst⟩ := hc
      simp at hmem)]
  · unfold ordersAt
    rw [show st.orders = st.orders.map (fun o => o) from (List.map_id' st.orders).symm]
    rw [List.map_map]
    apply List.map_congr_left
    intro o _
    simp only [Function.comp_apply]
    rw [if_neg (by
      rintro ⟨oi, hoi, ha, p, hp, hb, hc⟩
      rw [mem_storesOf] at hc
      obtain ⟨t, ht, hmem, hst⟩ := hc
      simp at hmem)]

theorem run_updates_inv (st : ExecState)
    (h1 : st.stops ≠ [])
    (h2 : (st.stops.map (fun s => s.stop_id)).Nodup)
    (h3 : ∀ t ∈ st.stops, t.stop_status ≠ StopSt.completed)
    (h7 : ∀ p ∈ st.list_items, p.item_id ≠ 0) :
    ∀ (sids : List Nat) (done : List Nat) (s : ExecState),
      ExecInv st done s → (∀ sid ∈ sids, ∃ t ∈ st.stops, t.stop_id = sid) →
      ExecInv st (done ++ sids) (run_stop_updates s sids) := by
  intro sids
  induction sids with
  | nil =>
    intro done s hinv _
    simpa using hinv
  | cons sid rest ih =>
    intro done s hinv hvalid
    obtain ⟨x, hx, rfl⟩ := hvalid sid (List.mem_cons_self sid rest)
    have hstep := update_stop_step st h1 h2 h3 h7 done s hinv x hx
    have hrest := ih (done ++ [x.stop_id]) (update_stop s x.stop_id StopSt.completed)
      hstep (fun i hi => hvalid i (List.mem_cons_of_mem _ hi))
    rw [show run_stop_updates s (x.stop_id :: rest) =
      run_stop_updates (update_stop s x.stop_id StopSt.completed) rest from rfl]
    rw [show done ++ x.stop_id :: rest = (done ++ [x.stop_id]) ++ rest by simp]
    exact hrest

/-- C6: execution cascade.  Marking every RouteStop of a route completed
through the stop-update operation (ids all valid, every stop covered,
stops initially not completed, every list item's store visited by some
stop, referenced order items existing with truthy ids) yields: the route
`completed`; every OrderItem referenced by the route's
PurchaseListItems `purchased`; and every implicated Order `completed`
when all its items are purchased, `partially_completed` when some item
remains unpurchased. -/
theorem execution_cascade (st : ExecState) (sids : List Nat)
    (h1 : st.stops ≠ [])
    (h2 : (st.stops.map (fun s => s.stop_id)).Nodup)
    (h3 : ∀ t ∈ st.stops, t.stop_status ≠ StopSt.completed)
    (h4 : ∀ sid ∈ sids, ∃ t ∈ st.stops, t.stop_id = sid)
    (h5 : ∀ t ∈ st.stops, t.stop_id ∈ sids)
    (h6 : ∀ p ∈ st.list_items, ∃ t ∈ st.stops, t.store_id = p.store_id)
    (h7 : ∀ p ∈ st.list_items, p.item_id ≠ 0) :
    (run_stop_updates st sids).route_status = RouteSt.completed ∧
    (∀ p ∈ st.list_items, ∀ oi ∈ (run_stop_updates st sids).items,
      oi.item_id = p.item_id → oi.item_status = ItemSt.purchased) ∧
    (∀ o ∈ (run_stop_updates st sids).orders,
      (∃ oi ∈ st.items, oi.order_id = o.order_id ∧
        ∃ p ∈ st.list_items, p.item_id = oi.item_id) →
      ((∀ oi ∈ (run_stop_updates st sids).items, oi.order_id = o.order_id →
          oi.item_status = ItemSt.purchased) → o.order_status = OrdSt.completed) ∧
      ((∃ oi ∈ (run_stop_updates st sids).items, oi.order_id = o.order_id ∧
          oi.item_status ≠ ItemSt.purchased) →
        o.order_status = OrdSt.partially_completed)) := by
  have hinv := run_updates_inv st h1 h2 h3 h7 sids [] st (exec_inv_init st) h4
  rw [List.nil_append] at hinv
  obtain ⟨hstops, hroute, hli, hitems, horders⟩ := hinv
  have hsne : sids ≠ [] := by
    obtain ⟨t, ht⟩ := List.exists_mem_of_ne_nil st.stops h1
    exact List.ne_nil_of_mem (h5 t ht)
  have hstore : ∀ p ∈ st.list_items, p.store_id ∈ storesOf st sids := by
    intro p hp
    obtain ⟨t, ht, hts⟩ := h6 p hp
    rw [mem_storesOf]
    exact ⟨t, ht, h5 t ht, hts⟩
  refine ⟨?_, ?_, ?_⟩
  · rw [hroute]
    unfold routeAt
    rw [if_pos ⟨hsne, h5⟩]
  · intro p hp oi hoi hid
    rw [hitems] at hoi
    unfold itemsAt at hoi
    rw [List.mem_map] at hoi
    obtain ⟨oi0, hoi0, rfl⟩ := hoi
    rw [itemsAt_map_item_id] at hid
    have htch : touchedItem st sids oi0 :=
      ⟨p, hp, hid.symm, h7 p hp, hstore p hp⟩
    rw [if_pos htch]
  · intro o ho himp
    rw [horders] at ho
    unfold ordersAt at ho
    rw [List.mem_map] at ho
    obtain ⟨o0, ho0, rfl⟩ := ho
    have hordO : ((if orderTouched st sids o0 then finalizeOrder (itemsAt st sids) o0
        else o0) : OrdRec).order_id = o0.order_id := by
      split
      · exact finalizeOrder_order_id _ _
      · rfl
    rw [hordO] at himp
    obtain ⟨oi0, hoi0, hord, p, hp, hpid⟩ := himp
    have htd : orderTouched st sids o0 :=
      ⟨oi0, hoi0, hord, p, hp, hpid, hstore p hp⟩
    rw [if_pos htd] at hordO ⊢
    rw [hitems]
    constructor
    · intro hall
      unfold finalizeOrder
      rw [if_pos (by
        intro oi hoi hoid
        exact hall oi hoi (by rw [hordO]; exact hoid))]
    · rintro ⟨oi, hoi, hoid, hnp⟩
      unfold finalizeOrder
      rw [if_neg (by
        intro hall
        rw [hordO] at hoid
        exact hnp (hall oi hoi hoid))]

/-- S8 scenario state: one 4-item order, two stops covering all four
PurchaseListItems. -/
def execC6 : ExecState :=
  ⟨[⟨1, 10, StopSt.pending⟩, ⟨2, 20, StopSt.pending⟩],
   RouteSt.in_progress,
   [⟨101, 10⟩, ⟨102, 10⟩, ⟨103, 20⟩, ⟨104, 20⟩],
   [⟨101, 5, ItemSt.assigned⟩, ⟨102, 5, ItemSt.assigned⟩,
    ⟨103, 5, ItemSt.assigned⟩, ⟨104, 5, ItemSt.assigned⟩],
   [⟨5, OrdSt.in_progress⟩]⟩

/-- Witness for `execution_cascade` on the S8 scenario. -/
theorem execution_cascade_witness :
    (run_stop_updates execC6 [1, 2]).route_status = RouteSt.completed ∧
    (∀ p ∈ execC6.list_items, ∀ oi ∈ (run_stop_updates execC6 [1, 2]).items,
      oi.item_id = p.item_id → oi.item_status = ItemSt.purchased) ∧
    (∀ o ∈ (run_stop_updates execC6 [1, 2]).orders,
      (∃ oi ∈ execC6.items, oi.order_id = o.order_id ∧
        ∃ p ∈ execC6.list_items, p.item_id = oi.item_id) →
      ((∀ oi ∈ (run_stop_updates execC6 [1, 2]).items, oi.order_id = o.order_id →
          oi.item_status = ItemSt.purchased) → o.order_status = OrdSt.completed) ∧
      ((∃ oi ∈ (run_stop_updates execC6 [1, 2]).items, oi.order_id = o.order_id ∧
          oi.item_status ≠ ItemSt.purchased) →
        o.order_status = OrdSt.partially_completed)) :=
  execution_cascade execC6 [1, 2] (by decide) (by decide) (by decide) (by decide)
    (by decide) (by decide) (by decide)
